import Mathlib

/-!
# A shallow embedding of `trace-anything.js` (class `TraceAnything`)

This file embeds the generic interception engine of `src/trace-anything.js`
into Lean 4 and proves the specification claims about it.

Modelling conventions (each definition cites the source lines it embeds):

* JavaScript values are the inductive `JSVal`.  Functions are opaque values
  (`FnId`) whose behaviour, where needed, is supplied by a pure environment
  `FnEnv` mapping a function value, a receiver and an argument list to a
  returned value or a thrown error.  The wrapper functions that the engine
  itself constructs (method shims, listener shims) are distinguished `FnId`
  constructors, because the engine gives them their semantics.
* A JavaScript object is the `JSVal.obj` constructor.  Its own enumerable
  members are an ordered association list of property descriptors `MDescr`.
  The bookkeeping properties the engine installs (`__TraceAnything__`,
  `__TraceAnythingEvents__`, `__TraceAnythingId__`) and the native
  `addEventListener` machinery are modelled as dedicated fields of the
  constructor rather than list entries; their names can never collide with
  the event/property names the claims quantify over.
* Native event-handler properties ("on…" properties backed by a browser
  slot) are the descriptor `MDescr.handlerD slot`: its getter returns the
  slot and its setter stores into it.  Generic accessor properties are
  `MDescr.accD` with opaque getter/setter functions.
* `logger` calls are modelled by returning the list of emitted `Log`
  records; `Date.now()` values are explicit `Nat` parameters.
* The process-wide `TraceAnything._nextGeneratedId` map is `IdState`;
  `TraceAnything._shimmedClasses` is `Registry` (keyed by constructor name,
  standing for constructor identity).
* Thrown JavaScript errors are `Except JSVal`; effectful engine calls
  return an `EffOut` bundling the result-or-throw, the emitted logs and the
  updated identity state.
-/

set_option autoImplicit false

namespace TraceAnything

/-- Log type constants (`TraceAnything.LogTypes`, lines 868-875). -/
inductive LogType where
  | Constructor
  | Method
  | Getter
  | Setter
  | Event
  | Warning
deriving DecidableEq, Repr

/-- An entry of `options.eventProperties`: a single property name or an
array of property names (see the `eventProperties` option, lines
1053-1061). -/
inductive PropSpec where
  | one (name : String)
  | many (names : List String)
deriving DecidableEq, Repr

mutual

/-- A JavaScript value.  `obj` carries, in order: the class name (the name
of `Object.getPrototypeOf(·).constructor`), the `__TraceAnything__` marker,
the `__TraceAnythingEvents__` set (`none` before it is assigned), the
`__TraceAnythingId__` value, whether the object exposes a native
`addEventListener` (line 137), whether the dynamic-discovery wrapper of
`_shimEventListenersDynamically` has been installed over it (line 717), the
native listener-registration table (event name and the argument list passed
to the native `addEventListener`), and the ordered own enumerable
members. -/
inductive JSVal where
  | undef
  | jsnull
  | jsbool (b : Bool)
  | num (n : Int)
  | str (s : String)
  | fn (f : FnId)
  | obj (cls : String) (marker : Bool) (evSet : Option (List String))
        (genId : Option String) (ael : Bool) (dynAEL : Bool)
        (listeners : List (String × List JSVal))
        (members : List (String × MDescr))

/-- A function value.  `user` and `noop` are opaque application functions
(`noop` is the `() => {}` literal the engine passes around); `methodShim`
is the wrapper built by `_shimMethod` (lines 344-412, capturing the class
name, the member name and the original method); `shimL` is the listener
wrapper built by `_shimEventListener` (lines 743-797, capturing the event
name, the correlated-property name resolved at wrap time, and the wrapped
user listener). -/
inductive FnId where
  | user (n : Nat)
  | noop
  | methodShim (cls k : String) (orig : FnId)
  | shimL (ev : String) (cpn : Option PropSpec) (inner : JSVal)

/-- A property descriptor, either original or installed by a shim.
* `dataD v w e c`: plain data property (value, writable, enumerable,
  configurable).
* `accD g s e c`: accessor property with opaque getter/setter.
* `handlerD slot`: native event-handler accessor property ("on…"): the
  getter returns `slot`, the setter stores into it (enumerable and
  configurable).
* `propShimData stored w e`: installed by `_shimProperty` for a data
  property (lines 484-508): getter returns the captured local
  `propertyValue` silently; the setter exists iff the original was
  writable, logs a Setter record and updates the local value.
* `propShimAcc orig e`: installed by `_shimProperty` for an accessor
  property (lines 509-563): delegates to the original descriptor's
  getter/setter and logs Getter/Setter records.
* `listenerShim ev slot`: installed by `_shimEventListenerProperty`
  (lines 677-695) over a native handler property: the getter delegates to
  the native slot; the setter replaces falsy listeners by a no-op, wraps
  through `_shimEventListener` and stores the wrapper in the slot. -/
inductive MDescr where
  | dataD (v : JSVal) (w e c : Bool)
  | accD (g s : Option FnId) (e c : Bool)
  | handlerD (slot : JSVal)
  | propShimData (stored : JSVal) (w e : Bool)
  | propShimAcc (orig : MDescr) (e : Bool)
  | listenerShim (ev : String) (slot : JSVal)

end

/-- A log record (`TraceAnything.Log`, lines 877-929).  Every field that
the JavaScript code sets conditionally is an `Option`; `none` means the
field is absent from the record. -/
structure Log where
  timestamp : Nat
  duration : Option Nat := none
  type : LogType
  inst : Option JSVal := none
  instanceId : Option JSVal := none
  message : Option String := none
  className : Option String := none
  methodName : Option String := none
  memberName : Option String := none
  eventName : Option String := none
  args : Option (List JSVal) := none
  threw : Option JSVal := none
  result : Option JSVal := none
  value : Option JSVal := none
  event : Option JSVal := none

/-- Resolved configuration (`TraceAnything.Options`, lines 995-1087).  The
`logger` option is modelled by collecting emitted records, and is therefore
not a field. -/
structure Options where
  inPlace : Bool
  methods : Bool
  properties : Bool
  treatPromisePropertiesAsEvents : Bool
  extraProperties : List String
  skipProperties : List String
  events : Bool
  extraEvents : List String
  skipEvents : List String
  eventProperties : List (String × PropSpec)
  exploreResultFields : List String
  logAsyncResultsImmediately : Bool
  idProperty : Option String

/-- `TraceAnything.defaultOptions` (lines 1096-1111). -/
def defaultOptions : Options where
  inPlace := true
  methods := true
  properties := true
  treatPromisePropertiesAsEvents := true
  extraProperties := []
  skipProperties := []
  events := true
  extraEvents := []
  skipEvents := []
  eventProperties := []
  exploreResultFields := []
  logAsyncResultsImmediately := true
  idProperty := some "id"

/-- `TraceAnything._nextGeneratedId` (line 1142): per-class-name counter
for generated ids. -/
def IdState : Type := List (String × Nat)

/-- `TraceAnything._shimmedClasses` (line 1118): traced classes and their
options, keyed by constructor identity (modelled by the class name). -/
def Registry : Type := List (String × Options)

/-- Pure behaviour environment for opaque function values: given the
function, the receiver (`this`) and the arguments, either the returned
value or the thrown error. -/
structure FnEnv where
  call : FnId → JSVal → List JSVal → Except JSVal JSVal

/-- Result of an effectful engine call: the returned value or the thrown
error, the log records handed to `options.logger` (in order), and the
updated generated-id state. -/
structure EffOut (α : Type) where
  res : Except JSVal α
  logs : List Log
  idSt : IdState

/-! ## Small helpers over the value model -/

/-- JavaScript truthiness of a value. -/
def truthy : JSVal → Bool
  | .undef => false
  | .jsnull => false
  | .jsbool b => b
  | .num n => n != 0
  | .str s => s ≠ ""
  | .fn _ => true
  | .obj _ _ _ _ _ _ _ _ => true

/-- `value == null` (true exactly for `null` and `undefined`). -/
def isNullish : JSVal → Bool
  | .undef => true
  | .jsnull => true
  | _ => false

/-- First binding of `k` in an association list. -/
def alookup {α : Type} (k : String) : List (String × α) → Option α
  | [] => none
  | (k', v) :: t => if k' = k then some v else alookup k t

/-- Replace the first binding of `k`, or append a new one (assignment /
`Object.defineProperty` on an object modelled as an ordered member
list). -/
def aset {α : Type} (k : String) (v : α) : List (String × α) → List (String × α)
  | [] => [(k, v)]
  | (k', v') :: t => if k' = k then (k, v) :: t else (k', v') :: aset k v t

/-- The class name of a value: `Object.getPrototypeOf(value).constructor`
(primitives are boxed to their wrapper classes). -/
def classOf : JSVal → String
  | .undef => "undefined"
  | .jsnull => "null"
  | .jsbool _ => "Boolean"
  | .num _ => "Number"
  | .str _ => "String"
  | .fn _ => "Function"
  | .obj cls _ _ _ _ _ _ _ => cls

/-- The `__TraceAnything__` marker of a value, as a truthiness test.
Objects carry it as a field; method shims set it on the shim function
(line 412); every other value lacks it. -/
def hasMarker : JSVal → Bool
  | .obj _ marker _ _ _ _ _ _ => marker
  | .fn (.methodShim _ _ _) => true
  | _ => false

/-- Member names of an object value (the own enumerable keys that `for…in`
would produce, restricted to the association list; the engine's
bookkeeping fields are modelled out of band, see the file header). -/
def memberNames : JSVal → List String
  | .obj _ _ _ _ _ _ _ ms => ms.map Prod.fst
  | _ => []

/-- Look up an own member descriptor. -/
def getMember : JSVal → String → Option MDescr
  | .obj _ _ _ _ _ _ _ ms, k => alookup k ms
  | _, _ => none

/-- Replace or add an own member descriptor. -/
def setMember : JSVal → String → MDescr → JSVal
  | .obj cls m ev gid ael dyn ls ms, k, d => .obj cls m ev gid ael dyn ls (aset k d ms)
  | v, _, _ => v

/-! ## Identity registry (`_getId`, lines 849-860) -/

/-- Whether `options.idProperty && options.idProperty in traced` holds
(line 850): the option is set and truthy, and the property name is present
on the instance. -/
def idPropApplicable (opts : Options) (o : JSVal) : Bool :=
  match opts.idProperty with
  | none => false
  | some p => p ≠ "" && (memberNames o).contains p

/-- The current value stored behind a member, without logging.  Used where
the engine reads a property for its own bookkeeping (`_getId` line 851);
for shim-installed descriptors this is the value their getter would
produce. -/
def memValue (env : FnEnv) (o : JSVal) (k : String) : Except JSVal JSVal :=
  match getMember o k with
  | none => .ok .undef
  | some (.dataD v _ _ _) => .ok v
  | some (.accD g _ _ _) =>
    match g with
    | some f => env.call f o []
    | none => .ok .undef
  | some (.handlerD slot) => .ok slot
  | some (.propShimData stored _ _) => .ok stored
  | some (.propShimAcc orig _) =>
    match orig with
    | .accD g _ _ _ =>
      match g with
      | some f => env.call f o []
      | none => .ok .undef
    | .handlerD slot => .ok slot
    | _ => .ok .undef
  | some (.listenerShim _ slot) => .ok slot

/-- `TraceAnything._getId(traced, className, options)` (lines 849-860).
Returns the id value, the possibly updated instance (the generated id is
stored on it) and the updated counter state.  The read of
`traced[options.idProperty]` is modelled by `memValue` (log-free). -/
def getId (env : FnEnv) (o : JSVal) (className : String) (opts : Options)
    (st : IdState) : JSVal × JSVal × IdState :=
  if idPropApplicable opts o then
    match opts.idProperty with
    | some p =>
      match memValue env o p with
      | .ok v => (v, o, st)
      | .error _ => (.undef, o, st)
    | none => (.undef, o, st)
  else
    match o with
    | .obj cls m ev none ael dyn ls ms =>
      let id := (alookup className st).getD 1
      let st' := aset className (id + 1) st
      let gid := className ++ "_" ++ toString id
      (.str gid, .obj cls m ev (some gid) ael dyn ls ms, st')
    | .obj _ _ _ (some gid) _ _ _ _ => (.str gid, o, st)
    | v => (.undef, v, st)

end TraceAnything

namespace TraceAnything

/-! ## String helpers used by the event heuristic -/

/-- `String.prototype.startsWith` (kernel-reducible formulation over the
character list). -/
def strStartsWith (s p : String) : Bool := p.data.isPrefixOf s.data

/-- `String.prototype.toLowerCase` (ASCII, which covers event and property
names). -/
def lowerStr (s : String) : String := ⟨s.data.map Char.toLower⟩

/-- `String.prototype.endsWith` (kernel-reducible formulation over the
character list). -/
def strEndsWith (s p : String) : Bool := p.data.isSuffixOf s.data

/-- `eventName.replace(/change$/, '')`: strip one trailing `"change"`. -/
def stripChange (s : String) : String :=
  if strEndsWith s "change" then ⟨s.data.take (s.data.length - 6)⟩ else s

/-- The wrap-time correlated-property-name computation of
`_shimEventListener` (lines 744-759): an explicit override from
`options.eventProperties`, else a case-insensitive scan of the scanned
object's member names for the lower-cased event name with a trailing
`"change"` stripped. -/
def corrPropName (scanObj : JSVal) (eventName : String) (opts : Options) :
    Option PropSpec :=
  match alookup eventName opts.eventProperties with
  | some spec => some spec
  | none =>
    let lowerCasePropertyName := stripChange (lowerStr eventName)
    match (memberNames scanObj).find? (fun k => lowerStr k = lowerCasePropertyName) with
    | some k => some (.one k)
    | none => none

/-- `_extractProperty(object, name)` (lines 808-817): read the member's
current value; if it is a function, call it on the object.  The read is
modelled by the log-free `memValue`. -/
def extractProperty (env : FnEnv) (o : JSVal) (name : String) :
    Except JSVal JSVal :=
  match memValue env o name with
  | .error e => .error e
  | .ok v =>
    match v with
    | .fn f => env.call f o []
    | _ => .ok v

/-- Helper for an array-valued `correspondingPropertyName` (lines 777-781):
build the `log.value` object mapping each configured name to its extracted
value, left to right, propagating a thrown error. -/
def extractMany (env : FnEnv) (o : JSVal) : List String →
    Except JSVal (List (String × MDescr))
  | [] => .ok []
  | name :: rest =>
    match extractProperty env o name with
    | .error e => .error e
    | .ok v =>
      match extractMany env o rest with
      | .error e => .error e
      | .ok fields => .ok ((name, .dataD v true true true) :: fields)

/-- Invocation of a listener wrapper built by `_shimEventListener`
(lines 762-796).  Arguments: the captured traced object (as it is at fire
time), class name, event name, the wrap-time correlated name, the wrapped
user listener, the incoming event payload and the fire instant.  Returns
what the forwarded listener call returns (or the thrown error), the logs,
the possibly updated object (a generated id may be stored by `_getId`) and
the id state. -/
def fireShimL (env : FnEnv) (o : JSVal) (cls ev : String)
    (cpn : Option PropSpec) (inner : JSVal) (opts : Options)
    (payload : JSVal) (t : Nat) (st : IdState) :
    (Except JSVal JSVal) × List Log × JSVal × IdState :=
  let r := getId env o cls opts st
  let iid := r.1
  let o1 := r.2.1
  let st1 := r.2.2
  let log0 : Log :=
    { timestamp := t, duration := some 0, type := .Event, inst := some o1,
      instanceId := some iid, className := some cls, eventName := some ev,
      event := some payload }
  let withValue : Except JSVal Log :=
    match cpn with
    | some (.many names) =>
      match extractMany env o1 names with
      | .error e => .error e
      | .ok fields =>
        .ok { log0 with value := some (.obj "Object" false none none false false [] fields) }
    | some (.one name) =>
      match extractProperty env o1 name with
      | .error e => .error e
      | .ok v => .ok { log0 with value := some v }
    | none => .ok log0
  match withValue with
  | .error e => (.error e, [], o1, st1)
  | .ok log =>
    let forwarded : Except JSVal JSVal :=
      match inner with
      | .fn f => env.call f o1 [payload]
      | other =>
        match memValue env other "handleEvent" with
        | .ok (.fn h) => env.call h other [payload]
        | _ => .error (.str "TypeError")
    (forwarded, [log], o1, st1)

/-! ## Property interaction semantics on a (possibly traced) object -/

/-- `_shimPropertySilent`'s copied descriptor (lines 637-641):
`Object.assign({}, originalDescriptor, {configurable: true})`. -/
def silentCopyD : MDescr → MDescr
  | .dataD v w e _ => .dataD v w e true
  | .accD g s e _ => .accD g s e true
  | d => d

/-- Reading member `k` of `o` (`o[k]`), honouring installed shims.
`t0`/`t1` are the `Date.now()` instants at entry and after the underlying
getter returns.  Produces the read value or the thrown error, the emitted
logs, the possibly updated object and the id state. -/
def objRead (env : FnEnv) (opts : Options) (o : JSVal) (k : String)
    (t0 t1 : Nat) (st : IdState) :
    (Except JSVal JSVal) × List Log × JSVal × IdState :=
  match getMember o k with
  | none => (.ok .undef, [], o, st)
  | some (.dataD v _ _ _) => (.ok v, [], o, st)
  | some (.accD g _ _ _) =>
    match g with
    | some f => (env.call f o [], [], o, st)
    | none => (.ok .undef, [], o, st)
  | some (.handlerD slot) => (.ok slot, [], o, st)
  | some (.propShimData stored _ _) => (.ok stored, [], o, st)
  | some (.propShimAcc orig _) =>
    match orig with
    | .accD (some f) _ _ _ =>
      let r := getId env o (classOf o) opts st
      let log0 : Log :=
        { timestamp := t0, type := .Getter, inst := some r.2.1,
          instanceId := some r.1, className := some (classOf o),
          memberName := some k }
      match env.call f r.2.1 [] with
      | .ok v =>
        (.ok v, [{ log0 with result := some v, duration := some (t1 - t0) }],
         r.2.1, r.2.2)
      | .error e =>
        (.error e, [{ log0 with threw := some e, duration := some (t1 - t0) }],
         r.2.1, r.2.2)
    | .handlerD slot =>
      let r := getId env o (classOf o) opts st
      let log0 : Log :=
        { timestamp := t0, type := .Getter, inst := some r.2.1,
          instanceId := some r.1, className := some (classOf o),
          memberName := some k }
      (.ok slot, [{ log0 with result := some slot, duration := some (t1 - t0) }],
       r.2.1, r.2.2)
    | _ => (.ok .undef, [], o, st)
  | some (.listenerShim _ slot) => (.ok slot, [], o, st)

/-- Writing `o[k] = v`, honouring installed shims.  Sloppy-mode JavaScript:
an assignment to a non-writable or getter-only member fails silently. -/
def objWrite (env : FnEnv) (opts : Options) (o : JSVal) (k : String)
    (v : JSVal) (t0 t1 : Nat) (st : IdState) :
    (Except JSVal Unit) × List Log × JSVal × IdState :=
  match getMember o k with
  | none => (.ok (), [], setMember o k (.dataD v true true true), st)
  | some (.dataD _ w e c) =>
    if w then (.ok (), [], setMember o k (.dataD v w e c), st)
    else (.ok (), [], o, st)
  | some (.accD _ s _ _) =>
    match s with
    | some f =>
      match env.call f o [v] with
      | .ok _ => (.ok (), [], o, st)
      | .error e => (.error e, [], o, st)
    | none => (.ok (), [], o, st)
  | some (.handlerD _) => (.ok (), [], setMember o k (.handlerD v), st)
  | some (.propShimData _ w e) =>
    if w then
      let r := getId env o (classOf o) opts st
      let log : Log :=
        { timestamp := t0, duration := some 0, type := .Setter,
          inst := some r.2.1, instanceId := some r.1,
          className := some (classOf o), memberName := some k,
          value := some v }
      (.ok (), [log], setMember r.2.1 k (.propShimData v w e), r.2.2)
    else (.ok (), [], o, st)
  | some (.propShimAcc orig e) =>
    match orig with
    | .accD _ (some f) _ _ =>
      let r := getId env o (classOf o) opts st
      let log0 : Log :=
        { timestamp := t0, type := .Setter, inst := some r.2.1,
          instanceId := some r.1, className := some (classOf o),
          memberName := some k }
      match env.call f r.2.1 [v] with
      | .ok _ =>
        (.ok (), [{ log0 with value := some v, duration := some (t1 - t0) }],
         r.2.1, r.2.2)
      | .error er =>
        (.error er,
         [{ log0 with threw := some er, duration := some (t1 - t0) }],
         r.2.1, r.2.2)
    | .handlerD _ =>
      let r := getId env o (classOf o) opts st
      let log : Log :=
        { timestamp := t0, type := .Setter, inst := some r.2.1,
          instanceId := some r.1, className := some (classOf o),
          memberName := some k, value := some v,
          duration := some (t1 - t0) }
      (.ok (), [log], setMember r.2.1 k (.propShimAcc (.handlerD v) e), r.2.2)
    | _ => (.ok (), [], o, st)
  | some (.listenerShim ev _) =>
    let actual := if truthy v then v else .fn .noop
    let cpn := corrPropName o ev opts
    let shim : JSVal := .fn (.shimL ev cpn actual)
    (.ok (), [], setMember o k (.listenerShim ev shim), st)

/-- Invoking a value as a function with a given receiver (`this`).
Function values are opaque behaviours supplied by the environment (the
engine's own wrapper functions need extra inputs — the original method's
behaviour — and are modelled separately, see `shimMethodCall`); invoking
a non-function throws a `TypeError`, as JavaScript does. -/
def callVal (env : FnEnv) (recv v : JSVal) (args : List JSVal) :
    Except JSVal JSVal :=
  match v with
  | .fn f => env.call f recv args
  | _ => .error (.str "TypeError")

/-- Calling member `k` of `o` (`o[k](...args)`): JavaScript evaluates the
member access first (through any installed shim — `objRead`) and then
invokes the produced value with `o` as receiver. -/
def objCall (env : FnEnv) (opts : Options) (o : JSVal) (k : String)
    (args : List JSVal) (t0 t1 : Nat) (st : IdState) :
    (Except JSVal JSVal) × List Log × JSVal × IdState :=
  match objRead env opts o k t0 t1 st with
  | (.ok v, logs, o1, st1) =>
    match callVal env o1 v args with
    | .ok r => (.ok r, logs, o1, st1)
    | .error e => (.error e, logs, o1, st1)
  | (.error e, logs, o1, st1) => (.error e, logs, o1, st1)

/-- The reference behaviour that passthrough is compared against: reading
a plain, un-instrumented member holding descriptor `d` on receiver
`recv`.  A data property yields its value, an accessor invokes its getter
on the receiver, a native handler slot yields the stored listener. -/
def origRead (env : FnEnv) (recv : JSVal) (d : MDescr) :
    Except JSVal JSVal :=
  match d with
  | .dataD v _ _ _ => .ok v
  | .accD g _ _ _ =>
    match g with
    | some f => env.call f recv []
    | none => .ok .undef
  | .handlerD slot => .ok slot
  | _ => (.ok .undef)

/-- Writing `v` to a plain, un-instrumented member holding descriptor `d`
on receiver `recv`: the outcome, and the descriptor the member holds
afterwards.  Sloppy-mode JavaScript: an assignment to a non-writable or
setter-less member fails silently. -/
def origWrite (env : FnEnv) (recv : JSVal) (d : MDescr) (v : JSVal) :
    (Except JSVal Unit) × MDescr :=
  match d with
  | .dataD _ w e c => if w then (.ok (), .dataD v w e c) else (.ok (), d)
  | .accD g s e c =>
    match s with
    | some f =>
      match env.call f recv [v] with
      | .ok _ => (.ok (), .accD g s e c)
      | .error e1 => (.error e1, .accD g s e c)
    | none => (.ok (), .accD g s e c)
  | .handlerD _ => (.ok (), .handlerD v)
  | d0 => (.ok (), d0)

/-- Calling a plain, un-instrumented member holding descriptor `d` on
receiver `recv`: read it, then invoke the produced value with `recv` as
receiver. -/
def origCall (env : FnEnv) (recv : JSVal) (d : MDescr)
    (args : List JSVal) : Except JSVal JSVal :=
  match origRead env recv d with
  | .ok v => callVal env recv v args
  | .error e => .error e

end TraceAnything

namespace TraceAnything

/-! ## The object shim (`traceObject`, lines 84-174, and the member shims) -/

/-- Enumerability of a descriptor (what `for…in` sees). -/
def descEnumerable : MDescr → Bool
  | .dataD _ _ e _ => e
  | .accD _ _ e _ => e
  | .handlerD _ => true
  | .propShimData _ _ e => e
  | .propShimAcc _ e => e
  | .listenerShim _ _ => true

/-- Plain assignment `o[k] = v` during shim installation (no logging
shims are consulted; `_shimMethod` line 344 installs by assignment, which
creates or overwrites a data property). -/
def assignMember (o : JSVal) (k : String) (v : JSVal) : JSVal :=
  match getMember o k with
  | some (.dataD _ w e c) => if w then setMember o k (.dataD v w e c) else o
  | some _ => setMember o k (.dataD v true true true)
  | none => setMember o k (.dataD v true true true)

/-- `traced.__TraceAnythingEvents__.add(ev)` (the set field). -/
def addEvSet (o : JSVal) (ev : String) : JSVal :=
  match o with
  | .obj cls m (some evs) gid ael dyn ls ms =>
    .obj cls m (some (if evs.contains ev then evs else evs ++ [ev])) gid ael dyn ls ms
  | .obj cls m none gid ael dyn ls ms => .obj cls m (some [ev]) gid ael dyn ls ms
  | v => v

/-- `traced.__TraceAnythingEvents__ = new Set()` (line 125). -/
def setEvSetEmpty (o : JSVal) : JSVal :=
  match o with
  | .obj cls m _ gid ael dyn ls ms => .obj cls m (some []) gid ael dyn ls ms
  | v => v

/-- Membership in `traced.__TraceAnythingEvents__`. -/
def evSetHas (o : JSVal) (ev : String) : Bool :=
  match o with
  | .obj _ _ (some evs) _ _ _ _ _ => evs.contains ev
  | _ => false

/-- `traced.__TraceAnything__ = true` (line 163). -/
def setMarker (o : JSVal) : JSVal :=
  match o with
  | .obj cls _ evs gid ael dyn ls ms => .obj cls true evs gid ael dyn ls ms
  | v => v

/-- Installation of the dynamic-discovery wrapper over `addEventListener`
(`_shimEventListenersDynamically`, line 717). -/
def setDynAEL (o : JSVal) : JSVal :=
  match o with
  | .obj cls m evs gid ael _ ls ms => .obj cls m evs gid ael true ls ms
  | v => v

/-- Append a call record to the native listener-registration table
(`originalMethod.call(this, eventName, ...args)`). -/
def addNativeListener (o : JSVal) (ev : String) (args : List JSVal) : JSVal :=
  match o with
  | .obj cls m evs gid ael dyn ls ms => .obj cls m evs gid ael dyn (ls ++ [(ev, args)]) ms
  | v => v

/-- `_shimMember` (lines 304-326): classify one member of `object` and
install the corresponding shim on `traced`.  Returns the updated traced
object (or the thrown error), the Warning logs, and the discovered
promise-property watches (`_shimPromiseProperty` attaches settlement
observers; they are recorded as `(member, promise)` pairs). -/
def shimMember (env : FnEnv) (o traced : JSVal) (k className : String)
    (opts : Options) (now : Nat) :
    (Except JSVal JSVal) × List Log × List (String × JSVal) :=
  match memValue env o k with
  | .error e => (.error e, [], [])
  | .ok v =>
    match v with
    | .fn f =>
      if opts.methods then
        -- `_shimMethod` (lines 338-413): install the wrapper by assignment.
        (.ok (assignMember traced k (.fn (.methodShim className k f))), [], [])
      else
        -- `_shimPropertySilent` (lines 624-642).
        if opts.inPlace then (.ok traced, [], [])
        else
          match getMember o k with
          | some d => (.ok (setMember traced k (silentCopyD d)), [], [])
          | none => (.ok (setMember traced k (.dataD .undef false false true)), [], [])
    | _ =>
      -- `object[k] && object[k].then` (line 317).
      match (if truthy v then memValue env v "then" else .ok .undef) with
      | .error e => (.error e, [], [])
      | .ok thenV =>
        if opts.properties && opts.treatPromisePropertiesAsEvents && truthy v
            && truthy thenV then
          -- `_shimPromiseProperty` (lines 579-610): only attaches settlement
          -- observers; no member is installed on `traced`.
          (.ok traced, [], [(k, v)])
        else if opts.properties then
          -- `_shimProperty` (lines 465-566).
          match getMember o k with
          | none =>
            -- `_getDescriptor` found nothing: the `console.assert` does not
            -- stop execution, and the following descriptor accesses throw.
            (.error (.str "TypeError"), [], [])
          | some d =>
            let configurable :=
              match d with
              | .dataD _ _ _ c => c
              | .accD _ _ _ c => c
              | .handlerD _ => true
              | _ => true
            if opts.inPlace && !configurable then
              -- Lines 469-477: warn and leave the member untouched.
              (.ok traced,
               [{ timestamp := now, duration := some 0, type := .Warning,
                  message := some ("Unable to trace " ++ k ++ " on " ++
                    className ++ " in-place!") }], [])
            else
              match d with
              | .dataD v0 w e _ =>
                -- `'value' in originalDescriptor` (lines 484-508).
                (.ok (setMember traced k (.propShimData v0 w e)), [], [])
              | .accD g s e _ =>
                (.ok (setMember traced k (.propShimAcc (.accD g s e true) e)), [], [])
              | .handlerD slot =>
                (.ok (setMember traced k (.propShimAcc (.handlerD slot) true)), [], [])
              | other => (.ok (setMember traced k (.propShimAcc other true)), [], [])
        else
          -- `_shimPropertySilent` (lines 624-642).
          if opts.inPlace then (.ok traced, [], [])
          else
            match getMember o k with
            | some d => (.ok (setMember traced k (silentCopyD d)), [], [])
            | none => (.ok (setMember traced k (.dataD .undef false false true)), [], [])

/-- The member loop of `traceObject` (lines 113-123): every candidate name
is shimmed, except that "on"-prefixed names are deferred when
`options.events` is set. -/
def shimLoop (env : FnEnv) (o : JSVal) (opts : Options) (className : String)
    (now : Nat) : List String → JSVal →
    (Except JSVal JSVal) × List Log × List (String × JSVal)
  | [], traced => (.ok traced, [], [])
  | k :: rest, traced =>
    if strStartsWith k "on" && opts.events then
      shimLoop env o opts className now rest traced
    else
      match shimMember env o traced k className opts now with
      | (.error e, logs, ws) => (.error e, logs, ws)
      | (.ok traced', logs, ws) =>
        match shimLoop env o opts className now rest traced' with
        | (res, logs', ws') => (res, logs ++ logs', ws ++ ws')

/-- `_shimEventListenerProperty` (lines 654-700) for one "on"-prefixed
member `k`.  The event name is `k` with the prefix stripped; names in
`options.skipEvents` are skipped entirely.  The old listener is read from
the native slot, the replacement accessor pair is installed, and the old
listener is immediately re-assigned through it, wrapping it (a falsy old
listener becomes a no-op).  A member whose descriptor is not a native
handler-slot accessor pair makes the installation throw when the engine
re-assigns through `originalDescriptor.set` (line 699). -/
def shimEvtLisProp (o traced : JSVal) (k : String)
    (opts : Options) : Except JSVal JSVal :=
  let eventName := k.drop 2
  if opts.skipEvents.contains eventName then .ok traced
  else
    let traced1 := addEvSet traced eventName
    match getMember o k with
    | some (.handlerD oldListener) =>
      let actual := if truthy oldListener then oldListener else .fn .noop
      let cpn := corrPropName o eventName opts
      let shim : JSVal := .fn (.shimL eventName cpn actual)
      .ok (setMember traced1 k (.listenerShim eventName shim))
    | _ => .error (.str "TypeError")

/-- The event-listener-property loop of `traceObject` (lines 127-133). -/
def evtLoop (o : JSVal) (opts : Options) :
    List String → JSVal → Except JSVal JSVal
  | [], traced => .ok traced
  | k :: rest, traced =>
    match shimEvtLisProp o traced k opts with
    | .error e => .error e
    | .ok traced' => evtLoop o opts rest traced'

/-- A call `traced.addEventListener(eventName, ...args)`.  When the
dynamic-discovery wrapper is installed (lines 717-728), an event name that
is neither observed yet nor skipped is first recorded and given a no-op
listener wrapper before the real call is forwarded to the original method;
otherwise the native method (if any) is invoked directly. -/
def tracedAEL (traced : JSVal) (eventName : String) (args : List JSVal)
    (opts : Options) : Except JSVal JSVal :=
  match traced with
  | .obj _ _ _ _ _ true _ _ =>
    let step1 :=
      if !evSetHas traced eventName && !opts.skipEvents.contains eventName then
        let traced' := addEvSet traced eventName
        let listener : JSVal :=
          .fn (.shimL eventName (corrPropName traced' eventName opts) (.fn .noop))
        addNativeListener traced' eventName [listener]
      else traced
    .ok (addNativeListener step1 eventName args)
  | .obj _ _ _ _ true false _ _ => .ok (addNativeListener traced eventName args)
  | _ => .error (.str "TypeError")

/-- JavaScript `for…in` over an array value: it enumerates the own
enumerable keys, which for an array are the index strings `"0"`, `"1"`,
…, not the elements. -/
def forInKeys {α : Type} (xs : List α) : List String :=
  (List.range xs.length).map toString

/-- The explicit-event loop of `traceObject` (lines 147-155): iterate
`for…in` over `options.extraEvents`, add each produced key to the
observed-event set first, then register a listener wrapper around a no-op
through `traced.addEventListener`.  The wrap-time scan object is the
original `object` (line 152). -/
def extraEventsLoop (o : JSVal) (opts : Options) :
    List String → JSVal → Except JSVal JSVal
  | [], traced => .ok traced
  | evName :: rest, traced =>
    let traced1 := addEvSet traced evName
    let listener : JSVal :=
      .fn (.shimL evName (corrPropName o evName opts) (.fn .noop))
    match tracedAEL traced1 evName [listener] opts with
    | .error e => .error e
    | .ok traced2 => extraEventsLoop o opts rest traced2

/-- `TraceAnything.traceObject(object, options)` (lines 84-174).  `now`
is the `Date.now()` instant for install-time Warning records.  On success
the result carries the traced object and the promise-property watches. -/
def traceObject (env : FnEnv) (o : JSVal) (opts : Options) (now : Nat)
    (st : IdState) : EffOut (JSVal × List (String × JSVal)) :=
  match o with
  | .obj _ true _ _ _ _ _ _ =>
    -- Lines 87-90: already tracing this object.
    ⟨.ok (o, []), [], st⟩
  | .obj cls false _ _ ael _ _ ms =>
    let className := cls
    -- Line 94: the target is the object itself, or a fresh wrapper whose
    -- prototype is set to `ctor.prototype` at line 159 (modelled by giving
    -- the wrapper the class name up front; `addEventListener` stays
    -- reachable through the prototype).
    let traced0 := if opts.inPlace then o else .obj cls false none none ael false [] []
    -- Lines 97-111: enumerable members not skipped, plus extraProperties.
    let enumProps :=
      (ms.filter (fun kv => descEnumerable kv.2 &&
        !opts.skipProperties.contains kv.1)).map Prod.fst
    let allProps := enumProps ++ opts.extraProperties
    match shimLoop env o opts className now allProps traced0 with
    | (.error e, logs, _) => ⟨.error e, logs, st⟩
    | (.ok traced1, logs, watches) =>
      let traced2 := setEvSetEmpty traced1
      let afterEvents : Except JSVal JSVal :=
        if opts.events then
          match evtLoop o opts (allProps.filter (fun k => strStartsWith k "on")) traced2 with
          | .error e => .error e
          | .ok traced3 =>
            -- Lines 134-141: dynamic discovery when the original object has
            -- an `addEventListener` method.
            .ok (if ael then setDynAEL traced3 else traced3)
        else .ok traced2
      match afterEvents with
      | .error e => ⟨.error e, logs, st⟩
      | .ok traced4 =>
        match extraEventsLoop o opts (forInKeys opts.extraEvents) traced4 with
        | .error e => ⟨.error e, logs, st⟩
        | .ok traced5 =>
          let traced6 := setMarker traced5
          -- Line 171: force the generated id now.
          let r := getId env traced6 className opts st
          ⟨.ok (r.2.1, watches), logs, r.2.2⟩
  | _ => .error (.str "TypeError") |> fun e => ⟨e, [], st⟩

end TraceAnything

namespace TraceAnything

/-! ## Return-value propagation (`_shimReturnValue`, lines 424-453) -/

/-- The `options.exploreResultFields` loop of `_shimReturnValue`
(lines 445-449), parameterized by the recursive propagation at the next
depth: every listed field that exists on the value is replaced by its
recursive propagation (`returnValue[k] = _shimReturnValue(returnValue[k],
options)`); the value itself is returned (line 452).  The `in` operator
throws on a primitive receiver. -/
def exploreFieldsWith (env : FnEnv) (rv : JSVal → IdState → EffOut JSVal) :
    List String → JSVal → IdState → EffOut JSVal
  | [], v, st => ⟨.ok v, [], st⟩
  | k :: rest, v, st =>
    match v with
    | .obj _ _ _ _ _ _ _ ms =>
      if (ms.map Prod.fst).contains k then
        match memValue env v k with
        | .error e => ⟨.error e, [], st⟩
        | .ok fv =>
          let r := rv fv st
          match r.res with
          | .error e => ⟨.error e, r.logs, r.idSt⟩
          | .ok fv' =>
            let r2 := exploreFieldsWith env rv rest (assignMember v k fv') r.idSt
            ⟨r2.res, r.logs ++ r2.logs, r2.idSt⟩
      else exploreFieldsWith env rv rest v st
    | .fn _ =>
      -- functions are objects; none of the engine's function values has
      -- the listed fields, so `k in returnValue` is false
      exploreFieldsWith env rv rest v st
    | _ => ⟨.error (.str "TypeError"), [], st⟩

/-- `TraceAnything._shimReturnValue(returnValue, options)` (lines
424-453).  `fuel` bounds the recursion depth (the JavaScript recursion
terminates on acyclic values; a large enough budget makes the model agree
with it).  `now` is the `Date.now()` base for any Warning records emitted
by a nested `traceObject`. -/
def shimRV (env : FnEnv) (reg : Registry) (opts : Options) (now : Nat) :
    Nat → JSVal → IdState → EffOut JSVal
  | 0, _, st => ⟨.error (.str "ModelRecursionBudget"), [], st⟩
  | fuel + 1, v, st =>
    if isNullish v then ⟨.ok v, [], st⟩
    else if hasMarker v then ⟨.ok v, [], st⟩
    else
      match alookup (classOf v) reg with
      | some returnTypeOptions =>
        -- Lines 435-443: a value of a traced class that is not yet traced.
        let r := traceObject env v returnTypeOptions now st
        ⟨r.res.map Prod.fst, r.logs, r.idSt⟩
      | none =>
        exploreFieldsWith env (shimRV env reg opts now fuel)
          opts.exploreResultFields v st

/-! ## The method shim (`_shimMethod`, lines 338-413) -/

/-- The behaviour of one invocation of the original method: a synchronous
throw, a synchronous non-thenable return, or the return of a thenable
(`returnValue.then` is truthy, line 369) together with its eventual
settlement. -/
inductive CallB where
  | thrown (e : JSVal)
  | ret (v : JSVal)
  | thenable (raw : JSVal) (settle : Except JSVal JSVal)

/-- The observable outcome of calling a method shim: either a synchronous
return/throw, or (for a thenable) the eventual settlement of the
`promiseShim` returned to the caller, together with the records logged at
settlement time. -/
inductive MRes where
  | sync (r : Except JSVal JSVal)
  | async (settled : Except JSVal JSVal) (settleLogs : List Log)

/-- One invocation of the wrapper installed by `_shimMethod` (lines
344-409) on receiver `self` with arguments `args`, where the original
method behaves as `beh`.  `t0` is `Date.now()` at entry, `t1` after the
original method returns synchronously, `t2` at settlement (for thenables)
or at the catch of a propagation error.  Returns the synchronously emitted
records, the outcome, the possibly updated receiver and the id state. -/
def shimMethodCall (env : FnEnv) (reg : Registry) (cls k : String)
    (opts : Options) (self : JSVal) (args : List JSVal) (beh : CallB)
    (fuel : Nat) (t0 t1 t2 : Nat) (st : IdState) :
    List Log × MRes × JSVal × IdState :=
  let r := getId env self cls opts st
  let iid := r.1
  let self1 := r.2.1
  let st1 := r.2.2
  let log0 : Log :=
    { timestamp := t0, type := .Method, inst := some self1,
      instanceId := some iid, className := some cls, methodName := some k,
      args := some args }
  match beh with
  | .thrown e =>
    -- Lines 402-408: log with the thrown error and no result, re-throw.
    ([{ log0 with threw := some e, duration := some (t1 - t0) }],
     .sync (.error e), self1, st1)
  | .ret v =>
    let log1 := { log0 with result := some v, duration := some (t1 - t0) }
    if isNullish v then
      -- Lines 360-364: null is not a Promise; return right away.
      ([log1], .sync (.ok v), self1, st1)
    else
      -- Lines 398-401: log, then propagate the return value.
      let rv := shimRV env reg opts t1 fuel v st1
      match rv.res with
      | .ok v' => (log1 :: rv.logs, .sync (.ok v'), self1, rv.idSt)
      | .error e =>
        -- A throw out of `_shimReturnValue` reaches the catch (lines
        -- 402-408) after the record was already emitted once.
        (log1 :: rv.logs ++
          [{ log0 with result := none, threw := some e, duration := some (t2 - t0) }],
         .sync (.error e), self1, rv.idSt)
  | .thenable raw settle =>
    let log1 := { log0 with result := some raw, duration := some (t1 - t0) }
    -- Lines 369-372: under logAsyncResultsImmediately, emit now.
    let syncLogs := if opts.logAsyncResultsImmediately then [log1] else []
    match settle with
    | .ok a =>
      -- Lines 375-384: propagate the settled value, then (if not logged
      -- immediately) set it as result, set the total duration, and emit.
      let rv := shimRV env reg opts t2 fuel a st1
      match rv.res with
      | .ok a' =>
        let settleLogs :=
          rv.logs ++
            (if opts.logAsyncResultsImmediately then []
             else [{ log0 with result := some a', duration := some (t2 - t0) }])
        (syncLogs, .async (.ok a') settleLogs, self1, rv.idSt)
      | .error e =>
        -- A throw inside the success continuation: the record is not
        -- emitted and the caller's deferred value never succeeds;
        -- modelled as a failure outcome.
        (syncLogs, .async (.error e) rv.logs, self1, rv.idSt)
    | .error e =>
      -- Lines 385-394: clear result, set the error, set duration, emit,
      -- and reject with the same error.
      let settleLogs :=
        if opts.logAsyncResultsImmediately then []
        else [{ log0 with result := none, threw := some e, duration := some (t2 - t0) }]
      (syncLogs, .async (.error e) settleLogs, self1, st1)

/-! ## The class shim (`traceClass`, lines 40-72) -/

/-- The registry side effect of `TraceAnything.traceClass` (line 43):
record the constructor and its resolved options. -/
def traceClass (cls : String) (opts : Options) (reg : Registry) : Registry :=
  aset cls opts reg

/-- One invocation of the replacement constructor returned by `traceClass`
(lines 45-71).  `runCtor` is the behaviour of `new ctor(...args)`; `t0` is
`Date.now()` at entry and `t1` at the final logging instant.  Returns the
emitted records, the value returned (or error thrown) to the caller, and
the id state. -/
def tracedCtorCall (env : FnEnv) (ctorName : String)
    (runCtor : List JSVal → Except JSVal JSVal)
    (opts : Options) (args : List JSVal) (t0 t1 : Nat) (st : IdState) :
    List Log × Except JSVal JSVal × IdState :=
  let log0 : Log :=
    { timestamp := t0, type := .Constructor, className := some ctorName,
      args := some args }
  match runCtor args with
  | .error e =>
    -- Lines 65-69: the original constructor threw before any instance
    -- field of the record was set.
    ([{ log0 with threw := some e, duration := some (t1 - t0) }], .error e, st)
  | .ok original =>
    let tr := traceObject env original opts t0 st
    match tr.res with
    | .error e =>
      (tr.logs ++ [{ log0 with threw := some e, duration := some (t1 - t0) }],
       .error e, tr.idSt)
    | .ok (traced, _watches) =>
      let r := getId env traced ctorName opts tr.idSt
      let iid := r.1
      let traced' := r.2.1
      let st' := r.2.2
      -- Line 60: `log.result = original`.  With inPlace the original and
      -- the traced object are the same reference (mutated in place);
      -- without it the wrapper is a distinct object and `original` is the
      -- untouched input.
      let resultVal := if opts.inPlace then traced' else original
      (tr.logs ++
        [{ log0 with
            inst := some traced', instanceId := some iid,
            result := some resultVal, duration := some (t1 - t0) }],
       .ok traced', st')

end TraceAnything

namespace TraceAnything

/-! ## Shared helper definitions and lemmas -/

/-- A concrete behaviour environment for witnesses: every opaque function
returns `undefined`. -/
def envU : FnEnv := ⟨fun _ _ _ => .ok .undef⟩

theorem alookup_aset_self {α : Type} (k : String) (v : α) :
    ∀ l : List (String × α), alookup k (aset k v l) = some v := by
  intro l
  induction l with
  | nil => simp [aset, alookup]
  | cons h t ih =>
    by_cases hk : h.1 = k
    · simp [aset, hk, alookup]
    · simp [aset, hk, alookup, ih]

theorem alookup_aset_other {α : Type} (k j : String) (v : α) (hne : j ≠ k) :
    ∀ l : List (String × α), alookup k (aset j v l) = alookup k l := by
  intro l
  induction l with
  | nil => simp [aset, alookup, hne]
  | cons h t ih =>
    by_cases hj : h.1 = j
    · have hk : ¬h.1 = k := fun hk => hne (hj.symm.trans hk)
      simp [aset, hj, alookup, hne, hk]
    · by_cases hk : h.1 = k
      · simp [aset, hj, alookup, hk, Ne.symm hne]
      · simp [aset, hj, alookup, hk, ih]

theorem string_append_ne_of_last_ne (p a b : String) (h : a.data ≠ b.data) :
    p ++ a ≠ p ++ b := by
  intro he
  apply h
  have hd := congrArg String.data he
  rw [String.data_append, String.data_append] at hd
  exact List.append_cancel_left hd

/-! ## C4: idempotence guard of `traceObject` -/

/-- C4: `traceObject` is idempotent: an object that already carries the
`__TraceAnything__` marker (lines 87-90) is returned as the identical
reference, with no log records emitted, no members re-shimmed, and no
identity state change. -/
theorem traceObject_idempotent (env : FnEnv) (cls : String)
    (evs : Option (List String)) (gid : Option String) (ael dyn : Bool)
    (ls : List (String × List JSVal)) (ms : List (String × MDescr))
    (opts : Options) (now : Nat) (st : IdState) :
    traceObject env (.obj cls true evs gid ael dyn ls ms) opts now st =
      ⟨.ok (.obj cls true evs gid ael dyn ls ms, []), [], st⟩ := rfl

/-! ## C8: generated identities (`_getId`, lines 849-860) -/

/-- C8: for an instance without an applicable `idProperty`, the first
identity lookup formats `className_c` from the per-class-name counter
(which starts at 1), stores it on the instance and increments the counter;
every later lookup returns the stored string unchanged; and two distinct
fresh instances of the same class name receive the identities
`className_1` and `className_2`, in creation order, which are distinct. -/
theorem getId_generated_spec (env : FnEnv) (cls : String) (m : Bool)
    (evs : Option (List String)) (ael dyn : Bool)
    (ls : List (String × List JSVal)) (ms : List (String × MDescr))
    (m2 : Bool) (evs2 : Option (List String)) (ael2 dyn2 : Bool)
    (ls2 : List (String × List JSVal)) (ms2 : List (String × MDescr))
    (g className : String) (opts : Options) (st : IdState) :
    (idPropApplicable opts (.obj cls m evs none ael dyn ls ms) = false →
      getId env (.obj cls m evs none ael dyn ls ms) className opts st =
        (.str (className ++ "_" ++ toString ((alookup className st).getD 1)),
         .obj cls m evs
           (some (className ++ "_" ++ toString ((alookup className st).getD 1)))
           ael dyn ls ms,
         aset className ((alookup className st).getD 1 + 1) st)) ∧
    (idPropApplicable opts (.obj cls m evs (some g) ael dyn ls ms) = false →
      getId env (.obj cls m evs (some g) ael dyn ls ms) className opts st =
        (.str g, .obj cls m evs (some g) ael dyn ls ms, st)) ∧
    (idPropApplicable opts (.obj cls m evs none ael dyn ls ms) = false →
     idPropApplicable opts (.obj cls m2 evs2 none ael2 dyn2 ls2 ms2) = false →
     alookup className st = none →
      (getId env (.obj cls m evs none ael dyn ls ms) className opts st).1 =
        .str (className ++ "_" ++ toString 1) ∧
      (getId env (.obj cls m2 evs2 none ael2 dyn2 ls2 ms2) className opts
          (getId env (.obj cls m evs none ael dyn ls ms) className opts st).2.2).1 =
        .str (className ++ "_" ++ toString 2) ∧
      (className ++ "_" ++ toString 1 : String) ≠ className ++ "_" ++ toString 2) := by
  refine ⟨fun h => ?_, fun h => ?_, fun h h2 hfresh => ?_⟩
  · simp [getId, h]
  · simp [getId, h]
  · refine ⟨by simp [getId, h, hfresh], ?_, ?_⟩
    · simp [getId, h, h2, hfresh, alookup_aset_self]
    · have : ("_" ++ toString 1 : String) ≠ "_" ++ toString 2 := by
        apply string_append_ne_of_last_ne
        decide
      rw [String.append_assoc, String.append_assoc]
      exact string_append_ne_of_last_ne className _ _ (by decide)

/-- Witness for C8 at a concrete instance: class `"Media"`, default
options (whose `idProperty` `"id"` is not present on the instance), empty
initial counter state. -/
theorem getId_generated_spec_witness :
    getId envU (.obj "Media" false none none false false [] []) "Media"
        defaultOptions [] =
      (.str "Media_1",
       .obj "Media" false none (some "Media_1") false false [] [],
       [("Media", 2)]) ∧
    ("Media" ++ "_" ++ toString 1 : String) ≠ "Media" ++ "_" ++ toString 2 := by
  have h := getId_generated_spec envU "Media" false none false false [] []
    false none false false [] [] "x" "Media" defaultOptions []
  refine ⟨?_, (h.2.2 (by decide) (by decide) rfl).2.2⟩
  have h1 := h.1 (by decide)
  simpa using h1

/-! ## C6: synchronous throw in a method shim (lines 402-408) -/

/-- C6: when the original method throws `e` synchronously, the method
shim emits exactly one Method record, carrying `threw = e` and no
`result` field, and re-throws the same error to the caller. -/
theorem shimMethodCall_syncThrow (env : FnEnv) (reg : Registry)
    (cls k : String) (opts : Options) (self : JSVal) (args : List JSVal)
    (e : JSVal) (fuel t0 t1 t2 : Nat) (st : IdState) :
    shimMethodCall env reg cls k opts self args (.thrown e) fuel t0 t1 t2 st =
      ([{ timestamp := t0, type := .Method,
          inst := some (getId env self cls opts st).2.1,
          instanceId := some (getId env self cls opts st).1,
          className := some cls, methodName := some k, args := some args,
          threw := some e, duration := some (t1 - t0) }],
       .sync (.error e), (getId env self cls opts st).2.1,
       (getId env self cls opts st).2.2) := rfl

/-! ## C10: constructor-throw record shape (lines 45-71) -/

/-- C10: when the original constructor throws, the replacement
constructor emits exactly one Constructor record carrying the class name,
the argument list, the thrown error and the duration — and no `instance`,
`instanceId` or `result` field — then re-throws the same error. -/
theorem tracedCtorCall_ctorThrow (env : FnEnv) (ctorName : String)
    (runCtor : List JSVal → Except JSVal JSVal) (opts : Options)
    (args : List JSVal) (t0 t1 : Nat) (st : IdState) (e : JSVal)
    (h : runCtor args = .error e) :
    tracedCtorCall env ctorName runCtor opts args t0 t1 st =
      ([{ timestamp := t0, type := .Constructor, className := some ctorName,
          args := some args, threw := some e, duration := some (t1 - t0) }],
       .error e, st) := by
  simp [tracedCtorCall, h]

/-- Witness for C10: a constructor that always throws `"boom"`. -/
theorem tracedCtorCall_ctorThrow_witness :
    tracedCtorCall envU "Foo" (fun _ => .error (.str "boom")) defaultOptions
        [] 5 9 [] =
      ([{ timestamp := 5, type := .Constructor, className := some "Foo",
          args := some [], threw := some (.str "boom"),
          duration := some 4 }],
       .error (.str "boom"), []) :=
  tracedCtorCall_ctorThrow envU "Foo" (fun _ => .error (.str "boom"))
    defaultOptions [] 5 9 [] (.str "boom") rfl

end TraceAnything

namespace TraceAnything

end TraceAnything

namespace TraceAnything

/-- The only records `_shimMember` emits at installation time are the
in-place Warning of `_shimProperty` (lines 469-477). -/
theorem shimMember_logs_cases (env : FnEnv) (o traced : JSVal)
    (k className : String) (opts : Options) (now : Nat) :
    (shimMember env o traced k className opts now).2.1 = [] ∨
    (shimMember env o traced k className opts now).2.1 =
      [{ timestamp := now, duration := some 0, type := .Warning,
         message := some ("Unable to trace " ++ k ++ " on " ++ className ++ " in-place!") }] := by
  unfold shimMember
  split
  · simp
  next v heq =>
    cases v <;> (try dsimp only) <;> repeat' split
    all_goals simp

theorem shimMember_logs_warning (env : FnEnv) (o traced : JSVal)
    (k className : String) (opts : Options) (now : Nat) :
    ∀ l ∈ (shimMember env o traced k className opts now).2.1,
      l.type = .Warning := by
  intro l hl
  rcases shimMember_logs_cases env o traced k className opts now with h | h <;>
    rw [h] at hl
  · simp at hl
  · rw [List.mem_singleton] at hl; subst hl; rfl

theorem shimLoop_logs_warning (env : FnEnv) (o : JSVal) (opts : Options)
    (className : String) (now : Nat) :
    ∀ (props : List String) (traced : JSVal),
      ∀ l ∈ (shimLoop env o opts className now props traced).2.1,
        l.type = .Warning := by
  intro props
  induction props with
  | nil => intro traced l hl; simp [shimLoop] at hl
  | cons k rest ih =>
    intro traced l hl
    unfold shimLoop at hl
    split at hl
    · exact ih traced l hl
    · split at hl
      next e logs ws heq =>
        have h1 := shimMember_logs_warning env o traced k className opts now l
        rw [heq] at h1
        exact h1 hl
      next traced' logs ws heq =>
        split at hl
        next res logs' ws' heq2 =>
          simp only at hl
          rcases List.mem_append.mp hl with h | h
          · have h1 := shimMember_logs_warning env o traced k className opts now l
            rw [heq] at h1
            exact h1 h
          · have h2 := ih traced' l
            rw [heq2] at h2
            exact h2 h

/-- Pair-style restatement of `shimLoop_logs_warning` for use after
`split`. -/
theorem shimLoop_logs_warning2 (env : FnEnv) (o : JSVal) (opts : Options)
    (className : String) (now : Nat) (props : List String) (traced : JSVal)
    (res : Except JSVal JSVal) (logs : List Log)
    (ws : List (String × JSVal))
    (heq : shimLoop env o opts className now props traced = (res, logs, ws)) :
    ∀ l ∈ logs, l.type = .Warning := by
  intro l hl
  have h1 := shimLoop_logs_warning env o opts className now props traced l
  rw [heq] at h1
  exact h1 hl

theorem traceObject_logs_warning (env : FnEnv) (o : JSVal) (opts : Options)
    (now : Nat) (st : IdState) :
    ∀ l ∈ (traceObject env o opts now st).logs, l.type = .Warning := by
  unfold traceObject
  dsimp only
  repeat' split
  all_goals intro l hl
  all_goals try simp at hl
  all_goals
    exact shimLoop_logs_warning2 _ _ _ _ _ _ _ _ _ _ (by assumption) l hl

end TraceAnything

namespace TraceAnything

/-- Pair-style restatement of `traceObject_logs_warning`. -/
theorem traceObject_logs_warning2 (env : FnEnv) (o : JSVal) (opts : Options)
    (now : Nat) (st : IdState) (res : Except JSVal (JSVal × List (String × JSVal)))
    (logs : List Log) (st' : IdState)
    (heq : traceObject env o opts now st = ⟨res, logs, st'⟩) :
    ∀ l ∈ logs, l.type = .Warning := by
  intro l hl
  have h1 := traceObject_logs_warning env o opts now st l
  rw [heq] at h1
  exact h1 hl

theorem exploreFieldsWith_logs_warning (env : FnEnv)
    (rv : JSVal → IdState → EffOut JSVal)
    (ihRV : ∀ (v : JSVal) (st : IdState),
      ∀ l ∈ (rv v st).logs, l.type = .Warning) :
    ∀ (ks : List String) (v : JSVal) (st : IdState),
      ∀ l ∈ (exploreFieldsWith env rv ks v st).logs,
        l.type = .Warning := by
  intro ks
  induction ks with
  | nil => intro v st l hl; simp [exploreFieldsWith] at hl
  | cons k rest ih =>
    intro v st l hl
    unfold exploreFieldsWith at hl
    dsimp only at hl
    repeat' split at hl
    all_goals try simp at hl
    · exact ihRV _ _ l hl
    · rcases hl with h | h
      · exact ihRV _ _ l h
      · exact ih _ _ l h
    · exact ih _ _ l hl
    · exact ih _ _ l hl

theorem shimRV_logs_warning (env : FnEnv) (reg : Registry) (opts : Options)
    (now : Nat) :
    ∀ (fuel : Nat) (v : JSVal) (st : IdState),
      ∀ l ∈ (shimRV env reg opts now fuel v st).logs, l.type = .Warning := by
  intro fuel
  induction fuel with
  | zero => intro v st l hl; simp [shimRV] at hl
  | succ n ih =>
    intro v st l hl
    unfold shimRV at hl
    dsimp only at hl
    repeat' split at hl
    all_goals try simp at hl
    · exact traceObject_logs_warning env v _ now st l hl
    · exact exploreFieldsWith_logs_warning env _ ih _ v st l hl

/-- A list of Warning records followed by one Method record filters to
exactly that Method record. -/
theorem filter_method_single (xs : List Log)
    (h : ∀ l ∈ xs, l.type = .Warning) (r : Log) (hr : r.type = .Method) :
    (xs ++ [r]).filter (fun l => decide (l.type = LogType.Method)) = [r] := by
  induction xs with
  | nil => simp [List.filter, hr]
  | cons a t ih =>
    have ha := h a (List.mem_cons_self a t)
    have ht : ∀ l ∈ t, l.type = .Warning := fun l hl => h l (List.mem_cons_of_mem a hl)
    simp [List.filter, ha, ih ht]

/-- A list of Warning records followed by one Constructor record filters
to exactly that Constructor record. -/
theorem filter_ctor_single (xs : List Log)
    (h : ∀ l ∈ xs, l.type = .Warning) (r : Log) (hr : r.type = .Constructor) :
    (xs ++ [r]).filter (fun l => decide (l.type = LogType.Constructor)) = [r] := by
  induction xs with
  | nil => simp [List.filter, hr]
  | cons a t ih =>
    have ha := h a (List.mem_cons_self a t)
    have ht : ∀ l ∈ t, l.type = .Warning := fun l hl => h l (List.mem_cons_of_mem a hl)
    simp [List.filter, ha, ih ht]

end TraceAnything

namespace TraceAnything

/-! ## C2: the explicit-event loop (`extraEvents`, lines 147-155) -/

/-- C2 (code bug): `traceObject` iterates `for…in` over the
`options.extraEvents` array (line 147), and `for…in` on an array
enumerates the index strings, not the elements.  With
`extraEvents = ["encrypted"]` on an object exposing `addEventListener`,
the observed-event-name set receives the index `"0"` (before
registration, so the dynamic-discovery wrapper does not register it a
second time) and the no-op shim listener is registered for the event
`"0"`; the event `"encrypted"` is never observed or registered, contrary
to the option's own documentation (lines 1043-1048). -/
theorem traceObject_extraEvents_forIn_bug :
    traceObject envU (.obj "Video" false none none true false [] [])
        { defaultOptions with extraEvents := ["encrypted"] } 0 [] =
      ⟨.ok (.obj "Video" true (some ["0"]) (some "Video_1") true true
          [("0", [.fn (.shimL "0" none (.fn .noop))])] [], []),
       [], [("Video", 2)]⟩ := rfl

/-! ## C3: the replacement constructor (lines 45-71) -/

/-- C3 (counterexample): with `inPlace = false`, the Constructor record's
`result` field is the untouched original instance (line 60:
`log.result = original`), not the instrumented wrapper returned to the
caller (`log.instance`): the two differ (the wrapper carries the
instrumentation marker, the original does not). -/
theorem tracedCtorCall_result_counterexample :
    tracedCtorCall envU "Foo"
        (fun _ => .ok (.obj "Foo" false none none false false [] []))
        { defaultOptions with inPlace := false } [] 0 3 [] =
      ([{ timestamp := 0, type := .Constructor, className := some "Foo",
          args := some [],
          inst := some (.obj "Foo" true (some []) (some "Foo_1") false false [] []),
          instanceId := some (.str "Foo_1"),
          result := some (.obj "Foo" false none none false false [] []),
          duration := some 3 }],
       .ok (.obj "Foo" true (some []) (some "Foo_1") false false [] []),
       [("Foo", 2)]) ∧
    some (JSVal.obj "Foo" false none none false false [] []) ≠
      some (JSVal.obj "Foo" true (some []) (some "Foo_1") false false [] []) :=
  ⟨rfl, by simp⟩

/-- C3 (amended): on success the replacement constructor emits exactly one
Constructor record (after any instrumentation Warnings) with the args, the
duration, `instance` = the instrumented instance, and `result` = the
original instance — which is the same reference as the returned
instrumented instance when `inPlace` is set, and the untouched original
otherwise — and returns the instrumented instance; when the original
constructor throws, it emits exactly one Constructor record with the
thrown error and duration and re-throws the same error. -/
theorem tracedCtorCall_spec (env : FnEnv) (ctorName : String)
    (runCtor : List JSVal → Except JSVal JSVal) (opts : Options)
    (args : List JSVal) (t0 t1 : Nat) (st : IdState) :
    (∀ e, runCtor args = .error e →
      tracedCtorCall env ctorName runCtor opts args t0 t1 st =
        ([{ timestamp := t0, type := .Constructor,
            className := some ctorName, args := some args, threw := some e,
            duration := some (t1 - t0) }], .error e, st)) ∧
    (∀ original traced watches logs1 st1 (r : Log),
      runCtor args = .ok original →
      traceObject env original opts t0 st = ⟨.ok (traced, watches), logs1, st1⟩ →
      r = { timestamp := t0, type := .Constructor,
            className := some ctorName, args := some args,
            inst := some (getId env traced ctorName opts st1).2.1,
            instanceId := some (getId env traced ctorName opts st1).1,
            result := some (if opts.inPlace
              then (getId env traced ctorName opts st1).2.1 else original),
            duration := some (t1 - t0) } →
      tracedCtorCall env ctorName runCtor opts args t0 t1 st =
        (logs1 ++ [r],
         .ok (getId env traced ctorName opts st1).2.1,
         (getId env traced ctorName opts st1).2.2) ∧
      (logs1 ++ [r]).filter (fun l => decide (l.type = LogType.Constructor)) =
        [r]) := by
  constructor
  · intro e h
    simp [tracedCtorCall, h]
  · intro original traced watches logs1 st1 r h h2 hr
    constructor
    · subst hr
      simp [tracedCtorCall, h, h2]
    · exact filter_ctor_single logs1
        (traceObject_logs_warning2 _ _ _ _ _ _ _ _ h2) r (by rw [hr])

/-- Witness for C3 (amended) at a concrete constructor, with the default
(in-place) options. -/
theorem tracedCtorCall_spec_witness :
    tracedCtorCall envU "Foo"
        (fun _ => .ok (.obj "Foo" false none none false false [] []))
        defaultOptions [] 0 3 [] =
      ([{ timestamp := 0, type := .Constructor, className := some "Foo",
          args := some [],
          inst := some (.obj "Foo" true (some []) (some "Foo_1") false false [] []),
          instanceId := some (.str "Foo_1"),
          result := some (.obj "Foo" true (some []) (some "Foo_1") false false [] []),
          duration := some 3 }],
       .ok (.obj "Foo" true (some []) (some "Foo_1") false false [] []),
       [("Foo", 2)]) :=
  ((tracedCtorCall_spec envU "Foo"
      (fun _ => .ok (.obj "Foo" false none none false false [] []))
      defaultOptions [] 0 3 []).2
    (.obj "Foo" false none none false false [] [])
    (.obj "Foo" true (some []) (some "Foo_1") false false [] []) [] []
    [("Foo", 2)] _ rfl rfl rfl).1

end TraceAnything

namespace TraceAnything

/-! ## C5: asynchronous two-phase logging (lines 369-397) -/

/-- C5: with `logAsyncResultsImmediately = false`, a method whose original
returns a thenable emits no record before settlement; on successful
settlement it emits exactly one Method record whose `result` is the
settled value after the Return-Value Propagator and whose duration spans
through settlement, and the deferred value handed to the caller succeeds
with that propagated value; on failed settlement it emits exactly one
Method record with the thrown error and no `result` field, and the
deferred value fails with the same error. -/
theorem shimMethodCall_asyncTwoPhase (env : FnEnv) (reg : Registry)
    (cls k : String) (opts : Options) (self raw : JSVal)
    (args : List JSVal) (fuel t0 t1 t2 : Nat) (st : IdState)
    (h : opts.logAsyncResultsImmediately = false) :
    (∀ a a' rvLogs st2 (r : Log),
      shimRV env reg opts t2 fuel a (getId env self cls opts st).2.2 =
        ⟨.ok a', rvLogs, st2⟩ →
      r = { timestamp := t0, type := .Method,
            inst := some (getId env self cls opts st).2.1,
            instanceId := some (getId env self cls opts st).1,
            className := some cls, methodName := some k, args := some args,
            result := some a', duration := some (t2 - t0) } →
      shimMethodCall env reg cls k opts self args (.thenable raw (.ok a))
          fuel t0 t1 t2 st =
        ([], .async (.ok a') (rvLogs ++ [r]),
         (getId env self cls opts st).2.1, st2) ∧
      (rvLogs ++ [r]).filter (fun l => decide (l.type = LogType.Method)) =
        [r]) ∧
    (∀ e,
      shimMethodCall env reg cls k opts self args (.thenable raw (.error e))
          fuel t0 t1 t2 st =
        ([], .async (.error e)
          [{ timestamp := t0, type := .Method,
             inst := some (getId env self cls opts st).2.1,
             instanceId := some (getId env self cls opts st).1,
             className := some cls, methodName := some k, args := some args,
             threw := some e, duration := some (t2 - t0) }],
         (getId env self cls opts st).2.1,
         (getId env self cls opts st).2.2)) := by
  constructor
  · intro a a' rvLogs st2 r hrv hr
    have hw : ∀ l ∈ rvLogs, l.type = .Warning := by
      intro l hl
      have h1 := shimRV_logs_warning env reg opts t2 fuel a
        (getId env self cls opts st).2.2 l
      rw [hrv] at h1
      exact h1 hl
    constructor
    · subst hr
      simp [shimMethodCall, h, hrv]
    · exact filter_method_single rvLogs hw r (by rw [hr])
  · intro e
    simp [shimMethodCall, h]

/-- The options used by the C5 witness: defaults with
`logAsyncResultsImmediately` disabled. -/
def asyncOpts : Options := { defaultOptions with logAsyncResultsImmediately := false }

/-- Witness for C5: a method on an already-identified instance returning a
thenable that settles with `"ok"`. -/
theorem shimMethodCall_asyncTwoPhase_witness :
    shimMethodCall envU [] "M" "load" asyncOpts
        (.obj "M" true (some []) (some "M_1") false false [] []) []
        (.thenable (.str "pending") (.ok (.str "ok"))) 1 10 11 25 [] =
      ([], .async (.ok (.str "ok"))
        [{ timestamp := 10, type := .Method,
           inst := some (.obj "M" true (some []) (some "M_1") false false [] []),
           instanceId := some (.str "M_1"), className := some "M",
           methodName := some "load", args := some [],
           result := some (.str "ok"), duration := some 15 }],
       .obj "M" true (some []) (some "M_1") false false [] [], []) :=
  ((shimMethodCall_asyncTwoPhase envU [] "M" "load" asyncOpts
      (.obj "M" true (some []) (some "M_1") false false [] [])
      (.str "pending") [] 1 10 11 25 [] rfl).1
    (.str "ok") (.str "ok") [] [] _ rfl rfl).1

end TraceAnything

namespace TraceAnything

/-- Whether a value is an object. -/
def isObjV : JSVal → Bool
  | .obj _ _ _ _ _ _ _ _ => true
  | _ => false

theorem setMember_isObj (o : JSVal) (k : String) (d : MDescr)
    (h : isObjV o = true) : isObjV (setMember o k d) = true := by
  cases o <;> simp_all [isObjV, setMember]

theorem assignMember_isObj (o : JSVal) (k : String) (v : JSVal)
    (h : isObjV o = true) : isObjV (assignMember o k v) = true := by
  unfold assignMember
  repeat' split
  all_goals first
    | exact h
    | exact setMember_isObj o k _ h

theorem shimMember_isObj (env : FnEnv) (o traced : JSVal)
    (k className : String) (opts : Options) (now : Nat) (t' : JSVal)
    (h : isObjV traced = true)
    (heq : (shimMember env o traced k className opts now).1 = .ok t') :
    isObjV t' = true := by
  unfold shimMember at heq
  repeat' split at heq
  all_goals try simp only [apply_ite Prod.fst] at heq
  all_goals try split_ifs at heq
  all_goals try simp only [Except.ok.injEq] at heq
  all_goals try (cases heq)
  all_goals first
    | exact h
    | exact setMember_isObj traced k _ h
    | exact assignMember_isObj traced k _ h

end TraceAnything


namespace TraceAnything

theorem addEvSet_isObj (o : JSVal) (ev : String) (h : isObjV o = true) :
    isObjV (addEvSet o ev) = true := by
  unfold addEvSet
  repeat' split
  all_goals simp_all [isObjV]

theorem setEvSetEmpty_isObj (o : JSVal) (h : isObjV o = true) :
    isObjV (setEvSetEmpty o) = true := by
  cases o <;> simp_all [isObjV, setEvSetEmpty]

theorem setDynAEL_isObj (o : JSVal) (h : isObjV o = true) :
    isObjV (setDynAEL o) = true := by
  cases o <;> simp_all [isObjV, setDynAEL]

theorem addNativeListener_isObj (o : JSVal) (ev : String) (args : List JSVal)
    (h : isObjV o = true) : isObjV (addNativeListener o ev args) = true := by
  cases o <;> simp_all [isObjV, addNativeListener]

/-- `setMarker` on an object yields the instrumentation marker. -/
theorem setMarker_marker (o : JSVal) (h : isObjV o = true) :
    hasMarker (setMarker o) = true := by
  cases o <;> simp_all [isObjV, setMarker, hasMarker]

/-- `_getId` never changes the instrumentation marker. -/
theorem getId_marker (env : FnEnv) (o : JSVal) (className : String)
    (opts : Options) (st : IdState) :
    hasMarker (getId env o className opts st).2.1 = hasMarker o := by
  unfold getId
  cases o <;> repeat' split
  all_goals simp_all [hasMarker]

theorem shimLoop_isObj (env : FnEnv) (o : JSVal) (opts : Options)
    (className : String) (now : Nat) :
    ∀ (props : List String) (traced t' : JSVal),
      (shimLoop env o opts className now props traced).1 = .ok t' →
      isObjV traced = true → isObjV t' = true := by
  intro props
  induction props with
  | nil =>
    intro traced t' heq h
    simp only [shimLoop, Except.ok.injEq] at heq
    subst heq
    exact h
  | cons k rest ih =>
    intro traced t' heq h
    unfold shimLoop at heq
    split at heq
    · exact ih traced t' heq h
    · split at heq
      next e logs ws hm => simp at heq
      next traced2 logs ws hm =>
        split at heq
        next res logs' ws' hsl =>
          have h2 : isObjV traced2 = true :=
            shimMember_isObj env o traced k className opts now traced2 h (by rw [hm])
          exact ih traced2 t' (by rw [hsl]; exact heq) h2

theorem shimEvtLisProp_isObj (o traced : JSVal) (k : String) (opts : Options)
    (t' : JSVal) (heq : shimEvtLisProp o traced k opts = .ok t')
    (h : isObjV traced = true) : isObjV t' = true := by
  unfold shimEvtLisProp at heq
  dsimp only at heq
  split at heq
  · cases heq
    exact h
  · split at heq
    next oldL hm =>
      cases heq
      exact setMember_isObj _ _ _ (addEvSet_isObj traced _ h)
    next hnm => cases heq

theorem evtLoop_isObj (o : JSVal) (opts : Options) :
    ∀ (names : List String) (traced t' : JSVal),
      evtLoop o opts names traced = .ok t' →
      isObjV traced = true → isObjV t' = true := by
  intro names
  induction names with
  | nil =>
    intro traced t' heq h
    simp only [evtLoop, Except.ok.injEq] at heq
    subst heq
    exact h
  | cons k rest ih =>
    intro traced t' heq h
    unfold evtLoop at heq
    split at heq
    · simp at heq
    next traced2 hp =>
      exact ih traced2 t' heq (shimEvtLisProp_isObj o traced k opts traced2 hp h)

theorem tracedAEL_isObj (traced : JSVal) (eventName : String)
    (args : List JSVal) (opts : Options) (t' : JSVal)
    (heq : tracedAEL traced eventName args opts = .ok t')
    (h : isObjV traced = true) : isObjV t' = true := by
  unfold tracedAEL at heq
  dsimp only at heq
  repeat' split at heq
  all_goals try simp only [Except.ok.injEq] at heq
  all_goals try cases heq
  all_goals first
    | simp at heq
    | exact addNativeListener_isObj _ _ _
        (addNativeListener_isObj _ _ _ (addEvSet_isObj _ _ h))
    | exact addNativeListener_isObj _ _ _ h

theorem extraEventsLoop_isObj (o : JSVal) (opts : Options) :
    ∀ (names : List String) (traced t' : JSVal),
      extraEventsLoop o opts names traced = .ok t' →
      isObjV traced = true → isObjV t' = true := by
  intro names
  induction names with
  | nil =>
    intro traced t' heq h
    simp only [extraEventsLoop, Except.ok.injEq] at heq
    subst heq
    exact h
  | cons ev rest ih =>
    intro traced t' heq h
    unfold extraEventsLoop at heq
    dsimp only at heq
    split at heq
    · simp at heq
    next traced2 hp =>
      exact ih traced2 t' heq
        (tracedAEL_isObj _ _ _ _ traced2 hp (addEvSet_isObj traced ev h))

end TraceAnything

namespace TraceAnything

theorem ite_isObj {c : Prop} [Decidable c] (a b : JSVal)
    (ha : isObjV a = true) (hb : isObjV b = true) :
    isObjV (if c then a else b) = true := by
  split <;> assumption

/-- Every object successfully returned by `traceObject` carries the
`__TraceAnything__` marker (line 163; the marker survives the final
`_getId` call). -/
theorem traceObject_marker (env : FnEnv) (o : JSVal) (opts : Options)
    (now : Nat) (st : IdState) (tr : JSVal) (w : List (String × JSVal))
    (logs : List Log) (st1 : IdState)
    (heq : traceObject env o opts now st = ⟨.ok (tr, w), logs, st1⟩) :
    hasMarker tr = true := by
  unfold traceObject at heq
  cases o with
  | obj cls marker evs gid ael dyn ls ms =>
    cases marker with
    | true =>
      simp only [EffOut.mk.injEq, Except.ok.injEq, Prod.mk.injEq] at heq
      rcases heq with ⟨⟨h1, _⟩, _, _⟩
      subst h1
      rfl
    | false =>
      dsimp only at heq
      split at heq
      next e logs0 ws hsl => simp at heq
      next traced1 logs0 watches hsl =>
        have hObj0 : isObjV (if opts.inPlace = true
            then JSVal.obj cls false evs gid ael dyn ls ms
            else JSVal.obj cls false none none ael false [] []) = true :=
          ite_isObj _ _ rfl rfl
        have hObj1 : isObjV traced1 = true :=
          shimLoop_isObj env _ opts _ now _ _ traced1 (by rw [hsl]) hObj0
        split at heq
        next e hae => simp at heq
        next traced4 hae =>
          have hObj4 : isObjV traced4 = true := by
            by_cases hev : opts.events = true
            · rw [if_pos hev] at hae
              split at hae
              · cases hae
              next traced3 hevt =>
                cases hae
                have hObj3 : isObjV traced3 = true :=
                  evtLoop_isObj _ opts _ _ traced3 hevt
                    (setEvSetEmpty_isObj traced1 hObj1)
                exact ite_isObj _ _ (setDynAEL_isObj _ hObj3) hObj3
            · rw [if_neg hev] at hae
              cases hae
              exact setEvSetEmpty_isObj traced1 hObj1
          split at heq
          next e hex => simp at heq
          next traced5 hex =>
            have hObj5 : isObjV traced5 = true :=
              extraEventsLoop_isObj _ opts _ _ traced5 hex hObj4
            simp only [EffOut.mk.injEq, Except.ok.injEq, Prod.mk.injEq] at heq
            rcases heq with ⟨⟨h1, _⟩, _, _⟩
            subst h1
            rw [getId_marker]
            exact setMarker_marker _ hObj5
  | undef => simp at heq
  | jsnull => simp at heq
  | jsbool b => simp at heq
  | num n => simp at heq
  | str s => simp at heq
  | fn f => simp at heq

end TraceAnything

namespace TraceAnything

theorem mem_of_alookup {α : Type} (k : String) (d : α) :
    ∀ l : List (String × α), alookup k l = some d → (k, d) ∈ l := by
  intro l
  induction l with
  | nil => intro h; simp [alookup] at h
  | cons p t ih =>
    intro h
    unfold alookup at h
    split at h
    next hp =>
      cases h
      cases p
      cases hp
      exact List.mem_cons_self _ _
    next hp =>
      exact List.mem_cons_of_mem p (ih h)

theorem contains_of_alookup {α : Type} (k : String) (d : α) :
    ∀ l : List (String × α), alookup k l = some d →
      (l.map Prod.fst).contains k = true := by
  intro l
  induction l with
  | nil => intro h; simp [alookup] at h
  | cons p t ih =>
    intro h
    unfold alookup at h
    split at h
    next hp => simp [List.contains_cons, hp]
    next hp => exact by simpa [List.contains_cons] using Or.inr ⟨d, mem_of_alookup k d t h⟩

/-- C7: behaviour of the Return-Value Propagator (`_shimReturnValue`,
lines 424-453): null/undefined are returned unchanged; a value already
carrying the `__TraceAnything__` marker is returned unchanged; `traceClass`
registers a class so that a value of that class is looked up successfully;
a not-yet-traced value of a registered class is run through the Object
Shim with the registered options and, on success, comes back carrying the
instrumentation marker; otherwise the value goes through the
`exploreResultFields` loop, in which listed fields that do not exist are
skipped (the value is returned untouched) and a listed data field is
replaced by its recursive propagation while the value itself is
returned. -/
theorem shimRV_spec (env : FnEnv) (reg : Registry) (opts ropts : Options)
    (now fuel : Nat) (st : IdState) (v : JSVal) :
    (shimRV env reg opts now (fuel + 1) .jsnull st = ⟨.ok .jsnull, [], st⟩) ∧
    (shimRV env reg opts now (fuel + 1) .undef st = ⟨.ok .undef, [], st⟩) ∧
    (hasMarker v = true →
      shimRV env reg opts now (fuel + 1) v st = ⟨.ok v, [], st⟩) ∧
    (∀ (cls2 : String) (opts2 : Options) (reg2 : Registry),
      alookup cls2 (traceClass cls2 opts2 reg2) = some opts2) ∧
    (isNullish v = false → hasMarker v = false →
      alookup (classOf v) reg = some ropts →
      shimRV env reg opts now (fuel + 1) v st =
        ⟨(traceObject env v ropts now st).res.map Prod.fst,
         (traceObject env v ropts now st).logs,
         (traceObject env v ropts now st).idSt⟩ ∧
      (∀ tr w logs1 st1,
        traceObject env v ropts now st = ⟨.ok (tr, w), logs1, st1⟩ →
        hasMarker tr = true)) ∧
    (isNullish v = false → hasMarker v = false →
      alookup (classOf v) reg = none →
      shimRV env reg opts now (fuel + 1) v st =
        exploreFieldsWith env (shimRV env reg opts now fuel)
          opts.exploreResultFields v st) ∧
    (∀ (rv : JSVal → IdState → EffOut JSVal) (cls : String) (m : Bool)
        (evs : Option (List String)) (gid : Option String) (ael dyn : Bool)
        (ls : List (String × List JSVal)) (ms : List (String × MDescr))
        (ks : List String) (st' : IdState),
      (∀ k ∈ ks, ((ms.map Prod.fst).contains k) = false) →
      exploreFieldsWith env rv ks (.obj cls m evs gid ael dyn ls ms) st' =
        ⟨.ok (.obj cls m evs gid ael dyn ls ms), [], st'⟩) ∧
    (∀ (rv : JSVal → IdState → EffOut JSVal) (cls : String) (m : Bool)
        (evs : Option (List String)) (gid : Option String) (ael dyn : Bool)
        (ls : List (String × List JSVal)) (ms : List (String × MDescr))
        (kf : String) (x x' : JSVal) (e' c' : Bool) (lg : List Log)
        (st' st2 : IdState),
      alookup kf ms = some (.dataD x true e' c') →
      rv x st' = ⟨.ok x', lg, st2⟩ →
      exploreFieldsWith env rv [kf] (.obj cls m evs gid ael dyn ls ms) st' =
        ⟨.ok (.obj cls m evs gid ael dyn ls
          (aset kf (.dataD x' true e' c') ms)), lg, st2⟩) := by
  refine ⟨rfl, rfl, ?_, ?_, ?_, ?_, ?_, ?_⟩
  · intro h
    unfold shimRV
    split
    · rfl
    · simp [h]
  · intro cls2 opts2 reg2
    exact alookup_aset_self cls2 opts2 reg2
  · intro h1 h2 h3
    constructor
    · simp [shimRV, h1, h2, h3]
    · intro tr w logs1 st1 heq
      exact traceObject_marker env v ropts now st tr w logs1 st1 heq
  · intro h1 h2 h3
    simp [shimRV, h1, h2, h3]
  · intro rv cls m evs gid ael dyn ls ms ks st' hk
    induction ks with
    | nil => rfl
    | cons k rest ih =>
      have hk0 := hk k (List.mem_cons_self k rest)
      have hkr : ∀ k' ∈ rest, ((ms.map Prod.fst).contains k') = false :=
        fun k' hm => hk k' (List.mem_cons_of_mem k hm)
      unfold exploreFieldsWith
      dsimp only
      rw [hk0]
      simp only [Bool.false_eq_true, if_false]
      exact ih hkr
  · intro rv cls m evs gid ael dyn ls ms kf x x' e' c' lg st' st2 hm hrv
    have hc : ((ms.map Prod.fst).contains kf) = true :=
      contains_of_alookup kf _ ms hm
    simp [exploreFieldsWith, memValue, getMember, hm, hc, hrv, assignMember,
      setMember]
    intro hnone
    exact absurd (mem_of_alookup kf _ ms hm) (by simpa using hnone _)

/-- Witness for C7: a fresh instance of the registered class `"Bar"` is
propagated through the Object Shim and comes back instrumented. -/
theorem shimRV_spec_witness :
    shimRV envU [("Bar", defaultOptions)] defaultOptions 0 1
        (.obj "Bar" false none none false false [] []) [] =
      ⟨.ok (.obj "Bar" true (some []) (some "Bar_1") false false [] []),
       [], [("Bar", 2)]⟩ ∧
    hasMarker (.obj "Bar" true (some []) (some "Bar_1") false false [] []) = true := by
  have h := shimRV_spec envU [("Bar", defaultOptions)] defaultOptions
    defaultOptions 0 0 [] (.obj "Bar" false none none false false [] [])
  have h5 := h.2.2.2.2.1 rfl rfl rfl
  exact ⟨h5.1.trans rfl, h5.2 _ _ _ _ rfl⟩

end TraceAnything

namespace TraceAnything

/-! ## C9: event-to-property correlation (lines 743-797, 808-817) -/

/-- C9: at wrap time `_shimEventListener` resolves the correlated
property name — from `options.eventProperties` when configured, else by
lower-casing the event name, stripping a trailing `"change"` and scanning
the instance's member names case-insensitively — and at fire time the
emitted Event record's `value` is that member's current value, read from
the instance as it is at fire time, the member being invoked as a call
first when it is callable (`_extractProperty`). -/
theorem fireShimL_value_spec (env : FnEnv) (scanObj firedObj : JSVal)
    (cls ev : String) (opts : Options) (inner payload : JSVal)
    (t : Nat) (st : IdState) (k0 : String) (val : JSVal) :
    (alookup ev opts.eventProperties = none →
      (memberNames scanObj).find?
        (fun k => lowerStr k = stripChange (lowerStr ev)) = some k0 →
      corrPropName scanObj ev opts = some (.one k0)) ∧
    (∀ spec, alookup ev opts.eventProperties = some spec →
      corrPropName scanObj ev opts = some spec) ∧
    (extractProperty env (getId env firedObj cls opts st).2.1 k0 = .ok val →
      (fireShimL env firedObj cls ev (some (.one k0)) inner opts payload t st).2.1 =
        [{ timestamp := t, duration := some 0, type := .Event,
           inst := some (getId env firedObj cls opts st).2.1,
           instanceId := some (getId env firedObj cls opts st).1,
           className := some cls, eventName := some ev,
           event := some payload, value := some val }]) ∧
    (∀ (o : JSVal) (f : FnId), memValue env o k0 = .ok (.fn f) →
      extractProperty env o k0 = env.call f o []) ∧
    (∀ (o v : JSVal), memValue env o k0 = .ok v → (∀ f, v ≠ .fn f) →
      extractProperty env o k0 = .ok v) := by
  refine ⟨?_, ?_, ?_, ?_, ?_⟩
  · intro h1 h2
    simp [corrPropName, h1, h2]
  · intro spec h1
    simp [corrPropName, h1]
  · intro hex
    simp [fireShimL, hex]
  · intro o f h
    simp [extractProperty, h]
  · intro o v h hnf
    cases v <;> simp_all [extractProperty]

/-- Witness for C9: member `volume`, event `volumechange`; the member's
value at fire time (7) differs from its value at wrap time (5) and the
record carries the fire-time reading. -/
theorem fireShimL_value_spec_witness :
    corrPropName
        (.obj "Media" false none none false false []
          [("volume", .dataD (.num 5) true true true)])
        "volumechange" defaultOptions = some (.one "volume") ∧
    (fireShimL envU
        (.obj "Media" true (some []) (some "Media_1") false false []
          [("volume", .propShimData (.num 7) true true)])
        "Media" "volumechange" (some (.one "volume")) (.fn .noop)
        defaultOptions (.str "payload") 42 []).2.1 =
      [{ timestamp := 42, duration := some 0, type := .Event,
         inst := some (.obj "Media" true (some []) (some "Media_1") false
           false [] [("volume", .propShimData (.num 7) true true)]),
         instanceId := some (.str "Media_1"), className := some "Media",
         eventName := some "volumechange", event := some (.str "payload"),
         value := some (.num 7) }] := by
  have h := fireShimL_value_spec envU
    (.obj "Media" false none none false false []
      [("volume", .dataD (.num 5) true true true)])
    (.obj "Media" true (some []) (some "Media_1") false false []
      [("volume", .propShimData (.num 7) true true)])
    "Media" "volumechange" defaultOptions (.fn .noop) (.str "payload")
    42 [] "volume" (.num 7)
  exact ⟨h.1 rfl rfl, h.2.2.1 rfl⟩

end TraceAnything

namespace TraceAnything

/-! ## Member-lookup preservation through the instrumentation pipeline -/

theorem setMember_getMember_other (o : JSVal) (j k : String) (d : MDescr)
    (hne : j ≠ k) : getMember (setMember o j d) k = getMember o k := by
  cases o <;> simp [setMember, getMember]
  exact alookup_aset_other k j d hne _

theorem setMember_getMember_self (cls : String) (m : Bool)
    (evs : Option (List String)) (gid : Option String) (ael dyn : Bool)
    (ls : List (String × List JSVal)) (ms : List (String × MDescr))
    (k : String) (d : MDescr) :
    getMember (setMember (.obj cls m evs gid ael dyn ls ms) k d) k = some d := by
  simp [setMember, getMember, alookup_aset_self]

theorem assignMember_getMember_other (o : JSVal) (j k : String) (v : JSVal)
    (hne : j ≠ k) : getMember (assignMember o j v) k = getMember o k := by
  unfold assignMember
  repeat' split
  all_goals first
    | rfl
    | exact setMember_getMember_other o j k _ hne

theorem addEvSet_getMember (o : JSVal) (ev k : String) :
    getMember (addEvSet o ev) k = getMember o k := by
  unfold addEvSet
  repeat' split <;> rfl

theorem setEvSetEmpty_getMember (o : JSVal) (k : String) :
    getMember (setEvSetEmpty o) k = getMember o k := by
  cases o <;> rfl

theorem setDynAEL_getMember (o : JSVal) (k : String) :
    getMember (setDynAEL o) k = getMember o k := by
  cases o <;> rfl

theorem setMarker_getMember (o : JSVal) (k : String) :
    getMember (setMarker o) k = getMember o k := by
  cases o <;> rfl

theorem addNativeListener_getMember (o : JSVal) (ev : String)
    (args : List JSVal) (k : String) :
    getMember (addNativeListener o ev args) k = getMember o k := by
  cases o <;> rfl

theorem getId_getMember (env : FnEnv) (o : JSVal) (className : String)
    (opts : Options) (st : IdState) (k : String) :
    getMember (getId env o className opts st).2.1 k = getMember o k := by
  unfold getId
  cases o <;> repeat' split
  all_goals simp_all [getMember]

/-- The successful results of `_shimMember` are the traced object itself,
a `defineProperty` on the shimmed name, or an assignment to it. -/
theorem shimMember_ok_shape (env : FnEnv) (o traced : JSVal)
    (j className : String) (opts : Options) (now : Nat) (t' : JSVal)
    (heq : (shimMember env o traced j className opts now).1 = .ok t') :
    t' = traced ∨ (∃ d, t' = setMember traced j d) ∨
      (∃ v, t' = assignMember traced j v) := by
  unfold shimMember at heq
  repeat' split at heq
  all_goals try simp only [apply_ite Prod.fst] at heq
  all_goals try split_ifs at heq
  all_goals try simp only [Except.ok.injEq] at heq
  all_goals try (cases heq)
  all_goals first
    | exact Or.inl rfl
    | exact Or.inr (Or.inl ⟨_, rfl⟩)
    | exact Or.inr (Or.inr ⟨_, rfl⟩)

theorem shimMember_getMember_other (env : FnEnv) (o traced : JSVal)
    (j className : String) (opts : Options) (now : Nat) (t' : JSVal)
    (k : String) (hne : j ≠ k)
    (heq : (shimMember env o traced j className opts now).1 = .ok t') :
    getMember t' k = getMember traced k := by
  rcases shimMember_ok_shape env o traced j className opts now t' heq with
    h | ⟨d, h⟩ | ⟨v, h⟩ <;> subst h
  · rfl
  · exact setMember_getMember_other traced j k d hne
  · exact assignMember_getMember_other traced j k v hne

end TraceAnything

namespace TraceAnything

theorem shimLoop_preserves (env : FnEnv) (o : JSVal) (opts : Options)
    (className : String) (now : Nat) (k : String) :
    ∀ (props : List String) (traced t' : JSVal), k ∉ props →
      (shimLoop env o opts className now props traced).1 = .ok t' →
      getMember t' k = getMember traced k := by
  intro props
  induction props with
  | nil =>
    intro traced t' _ heq
    simp only [shimLoop, Except.ok.injEq] at heq
    subst heq
    rfl
  | cons j rest ih =>
    intro traced t' hk heq
    have hjk : j ≠ k := fun h => hk (h ▸ List.mem_cons_self j rest)
    have hkr : k ∉ rest := fun h => hk (List.mem_cons_of_mem j h)
    unfold shimLoop at heq
    split at heq
    · exact ih traced t' hkr heq
    · split at heq
      next e logs ws hm => simp at heq
      next traced2 logs ws hm =>
        split at heq
        next res logs' ws' hsl =>
          have h2 := ih traced2 t' hkr (by rw [hsl]; exact heq)
          rw [h2]
          exact shimMember_getMember_other env o traced j className opts now
            traced2 k hjk (by rw [hm])

theorem shimLoop_installs (env : FnEnv) (o : JSVal) (opts : Options)
    (className : String) (now : Nat) (k : String) (tgt : Option MDescr)
    (hon : (strStartsWith k "on" && opts.events) = false)
    (hstep : ∀ traced : JSVal, isObjV traced = true →
      ∃ t2, (shimMember env o traced k className opts now).1 = .ok t2 ∧
        getMember t2 k = tgt ∧ isObjV t2 = true) :
    ∀ (props : List String) (traced t' : JSVal),
      k ∈ props → isObjV traced = true →
      (shimLoop env o opts className now props traced).1 = .ok t' →
      getMember t' k = tgt := by
  intro props
  induction props with
  | nil => intro traced t' hk; simp at hk
  | cons j rest ih =>
    intro traced t' hk hobj heq
    by_cases hkrest : k ∈ rest
    · unfold shimLoop at heq
      split at heq
      · exact ih traced t' hkrest hobj heq
      · split at heq
        next e logs ws hm => simp at heq
        next traced2 logs ws hm =>
          split at heq
          next res logs2 ws2 hsl =>
            have hobj2 : isObjV traced2 = true :=
              shimMember_isObj env o traced j className opts now traced2 hobj
                (by rw [hm])
            exact ih traced2 t' hkrest hobj2 (by rw [hsl]; exact heq)
    · have hjk : j = k := by
        rcases List.mem_cons.mp hk with h | h
        · exact h.symm
        · exact absurd h hkrest
      subst hjk
      have hkr : j ∉ rest := hkrest
      unfold shimLoop at heq
      rw [hon] at heq
      simp only [Bool.false_eq_true, if_false] at heq
      obtain ⟨t2, hsm, htgt, hobj2⟩ := hstep traced hobj
      rcases hsm3 : shimMember env o traced j className opts now with ⟨res, logs, ws⟩
      rw [hsm3] at heq hsm
      simp only at hsm
      subst hsm
      dsimp only at heq
      rcases hsl : shimLoop env o opts className now rest t2 with ⟨res2, logs2, ws2⟩
      rw [hsl] at heq
      dsimp only at heq
      rw [shimLoop_preserves env o opts className now j rest t2 t' hkr
        (by rw [hsl]; exact heq)]
      exact htgt

end TraceAnything

namespace TraceAnything

theorem shimEvtLisProp_getMember (o traced : JSVal) (j : String)
    (opts : Options) (t' : JSVal) (k : String) (hne : j ≠ k)
    (heq : shimEvtLisProp o traced j opts = .ok t') :
    getMember t' k = getMember traced k := by
  unfold shimEvtLisProp at heq
  dsimp only at heq
  split at heq
  · cases heq; rfl
  · split at heq
    next oldL hm =>
      cases heq
      rw [setMember_getMember_other _ j k _ hne, addEvSet_getMember]
    next => cases heq

theorem evtLoop_preserves (o : JSVal) (opts : Options) (k : String) :
    ∀ (names : List String) (traced t' : JSVal), k ∉ names →
      evtLoop o opts names traced = .ok t' →
      getMember t' k = getMember traced k := by
  intro names
  induction names with
  | nil =>
    intro traced t' _ heq
    simp only [evtLoop, Except.ok.injEq] at heq
    subst heq
    rfl
  | cons j rest ih =>
    intro traced t' hk heq
    have hjk : j ≠ k := fun h => hk (h ▸ List.mem_cons_self j rest)
    have hkr : k ∉ rest := fun h => hk (List.mem_cons_of_mem j h)
    unfold evtLoop at heq
    split at heq
    · simp at heq
    next traced2 hp =>
      rw [ih traced2 t' hkr heq]
      exact shimEvtLisProp_getMember o traced j opts traced2 k hjk hp

theorem tracedAEL_getMember (traced : JSVal) (eventName : String)
    (args : List JSVal) (opts : Options) (t' : JSVal) (k : String)
    (heq : tracedAEL traced eventName args opts = .ok t') :
    getMember t' k = getMember traced k := by
  unfold tracedAEL at heq
  dsimp only at heq
  repeat' split at heq
  all_goals try simp only [Except.ok.injEq] at heq
  all_goals try cases heq
  all_goals first
    | simp at heq
    | (rw [addNativeListener_getMember, addNativeListener_getMember,
        addEvSet_getMember])
    | rw [addNativeListener_getMember]

theorem extraEventsLoop_preserves (o : JSVal) (opts : Options) (k : String) :
    ∀ (names : List String) (traced t' : JSVal),
      extraEventsLoop o opts names traced = .ok t' →
      getMember t' k = getMember traced k := by
  intro names
  induction names with
  | nil =>
    intro traced t' heq
    simp only [extraEventsLoop, Except.ok.injEq] at heq
    subst heq
    rfl
  | cons ev rest ih =>
    intro traced t' heq
    unfold extraEventsLoop at heq
    dsimp only at heq
    split at heq
    · simp at heq
    next traced2 hp =>
      rw [ih traced2 t' heq,
        tracedAEL_getMember _ _ _ _ traced2 k hp, addEvSet_getMember]

end TraceAnything

namespace TraceAnything

/-- Descriptors that occur on an untraced source object. -/
def isOriginalDescr : MDescr → Bool
  | .dataD _ _ _ _ => true
  | .accD _ _ _ _ => true
  | .handlerD _ => true
  | _ => false

theorem setMember_getMember_self2 (o : JSVal) (k : String) (d : MDescr)
    (h : isObjV o = true) : getMember (setMember o k d) k = some d := by
  cases o <;> simp_all [isObjV, setMember, getMember, alookup_aset_self]

theorem getId_isObj (env : FnEnv) (o : JSVal) (className : String)
    (opts : Options) (st : IdState) :
    isObjV (getId env o className opts st).2.1 = isObjV o := by
  unfold getId
  cases o <;> repeat' split
  all_goals simp_all [isObjV]

theorem setMarker_isObj (o : JSVal) (h : isObjV o = true) :
    isObjV (setMarker o) = true := by
  cases o <;> simp_all [isObjV, setMarker]

/-- A member holding a function value with `methods` disabled goes to the
silent shim (lines 310-315). -/
theorem shimMember_silent_fn (env : FnEnv) (o traced : JSVal)
    (k className : String) (opts : Options) (now : Nat) (f : FnId)
    (d : MDescr) (hv : memValue env o k = .ok (.fn f))
    (hm : opts.methods = false) (hd : getMember o k = some d) :
    (shimMember env o traced k className opts now).1 =
      .ok (if opts.inPlace then traced
           else setMember traced k (silentCopyD d)) := by
  by_cases hip : opts.inPlace = true <;>
    simp [shimMember, hv, hm, hd, hip]

/-- A non-function member with `properties` disabled goes to the silent
shim (lines 316-324). -/
theorem shimMember_silent_prop (env : FnEnv) (o traced : JSVal)
    (k className : String) (opts : Options) (now : Nat) (v tv : JSVal)
    (d : MDescr) (hv : memValue env o k = .ok v)
    (hnf : ∀ f, v ≠ .fn f) (hp : opts.properties = false)
    (hth : (if truthy v = true then memValue env v "then"
            else .ok .undef) = .ok tv)
    (hd : getMember o k = some d) :
    (shimMember env o traced k className opts now).1 =
      .ok (if opts.inPlace then traced
           else setMember traced k (silentCopyD d)) := by
  by_cases hip : opts.inPlace = true <;>
    cases v <;>
    first
      | exact absurd rfl (hnf _)
      | simp_all [shimMember]

/-- Like `shimLoop_installs`, but for a step that leaves the shimmed
member exactly as it was on the fold state (the in-place silent shim). -/
theorem shimLoop_fixes (env : FnEnv) (o : JSVal) (opts : Options)
    (className : String) (now : Nat) (k : String)
    (hstep : ∀ traced : JSVal, isObjV traced = true →
      ∃ t2, (shimMember env o traced k className opts now).1 = .ok t2 ∧
        getMember t2 k = getMember traced k ∧ isObjV t2 = true) :
    ∀ (props : List String) (traced t' : JSVal),
      isObjV traced = true →
      (shimLoop env o opts className now props traced).1 = .ok t' →
      getMember t' k = getMember traced k := by
  intro props
  induction props with
  | nil =>
    intro traced t' _ heq
    simp only [shimLoop, Except.ok.injEq] at heq
    subst heq
    rfl
  | cons j rest ih =>
    intro traced t' hobj heq
    unfold shimLoop at heq
    split at heq
    · exact ih traced t' hobj heq
    · split at heq
      next e logs ws hm => simp at heq
      next traced2 logs ws hm =>
        split at heq
        next res logs2 ws2 hsl =>
          have hobj2 : isObjV traced2 = true :=
            shimMember_isObj env o traced j className opts now traced2 hobj
              (by rw [hm])
          have hrest := ih traced2 t' hobj2 (by rw [hsl]; exact heq)
          rw [hrest]
          by_cases hjk : j = k
          · subst hjk
            obtain ⟨t2, hsm, hfix, _⟩ := hstep traced hobj
            rw [hm] at hsm
            simp only at hsm
            cases hsm
            exact hfix
          · exact shimMember_getMember_other env o traced j className opts
              now traced2 k hjk (by rw [hm])

end TraceAnything

namespace TraceAnything

/-- On the no-marker path, the member `k` of the object returned by
`traceObject` is exactly what the member loop (`shimLoop`) installed for
it: none of the later stages (event-listener shims for "on"-names, the
dynamic wrapper, the explicit-event loop, the marker and the forced id)
touches it. -/
theorem traceObject_member_k (env : FnEnv) (cls : String)
    (evs : Option (List String)) (gid : Option String) (ael dyn : Bool)
    (ls : List (String × List JSVal)) (ms : List (String × MDescr))
    (opts : Options) (now : Nat) (st : IdState) (k : String)
    (hon : (strStartsWith k "on" && opts.events) = false ∨
      k ∉ (((ms.filter (fun kv => descEnumerable kv.2 &&
          !opts.skipProperties.contains kv.1)).map Prod.fst) ++
        opts.extraProperties)) :
    ∀ (tr : JSVal) (w : List (String × JSVal)) (logs : List Log)
      (st1 : IdState),
      traceObject env (.obj cls false evs gid ael dyn ls ms) opts now st =
        ⟨.ok (tr, w), logs, st1⟩ →
      ∃ traced1 logs0 watches,
        shimLoop env (.obj cls false evs gid ael dyn ls ms) opts cls now
          (((ms.filter (fun kv => descEnumerable kv.2 &&
              !opts.skipProperties.contains kv.1)).map Prod.fst) ++
            opts.extraProperties)
          (if opts.inPlace = true
           then JSVal.obj cls false evs gid ael dyn ls ms
           else JSVal.obj cls false none none ael false [] []) =
          (.ok traced1, logs0, watches) ∧
        getMember tr k = getMember traced1 k := by
  intro tr w logs st1 heq
  unfold traceObject at heq
  dsimp only at heq
  split at heq
  next e logs0 ws hsl => simp at heq
  next traced1 logs0 watches hsl =>
    refine ⟨traced1, logs0, watches, hsl, ?_⟩
    split at heq
    next e hae => simp at heq
    next traced4 hae =>
      have h4 : getMember traced4 k = getMember traced1 k := by
        by_cases hev : opts.events = true
        · rw [if_pos hev] at hae
          split at hae
          · cases hae
          next traced3 hevt =>
            cases hae
            have hkn : k ∉ ((((ms.filter (fun kv => descEnumerable kv.2 &&
                !opts.skipProperties.contains kv.1)).map Prod.fst) ++
                  opts.extraProperties).filter
                    (fun j => strStartsWith j "on")) := by
              intro hmem
              rcases hon with hon | hon
              · have hstart := (List.mem_filter.mp hmem).2
                rw [hev, Bool.and_true] at hon
                simp [hon] at hstart
              · exact hon (List.mem_filter.mp hmem).1
            have h3 := evtLoop_preserves
              (.obj cls false evs gid ael dyn ls ms) opts k _ _ traced3
              hkn hevt
            by_cases hael : ael = true
            · rw [if_pos hael, setDynAEL_getMember, h3, setEvSetEmpty_getMember]
            · rw [if_neg hael, h3, setEvSetEmpty_getMember]
        · rw [if_neg hev] at hae
          cases hae
          rw [setEvSetEmpty_getMember]
      split at heq
      next e hex => simp at heq
      next traced5 hex =>
        simp only [EffOut.mk.injEq, Except.ok.injEq, Prod.mk.injEq] at heq
        rcases heq with ⟨⟨h1, _⟩, _, _⟩
        subst h1
        rw [getId_getMember, setMarker_getMember,
          extraEventsLoop_preserves _ opts k _ _ traced5 hex, h4]

end TraceAnything


namespace TraceAnything

theorem not_mem_of_contains_false {l : List String} {a : String}
    (h : l.contains a = false) : a ∉ l := by
  intro hm
  induction l with
  | nil => simp at hm
  | cons b t ih =>
    rw [List.contains_cons] at h
    rcases List.mem_cons.mp hm with h1 | h1
    · subst h1
      simp at h
    · exact ih (by simpa using (Bool.or_eq_false_iff.mp h).2) h1

theorem isObj_of_getMember_some (o : JSVal) (k : String) (d : MDescr)
    (h : getMember o k = some d) : isObjV o = true := by
  cases o <;> simp_all [getMember, isObjV]

theorem mem_of_contains_true {l : List String} {a : String}
    (h : l.contains a = true) : a ∈ l := by
  induction l with
  | nil => simp [List.contains] at h
  | cons b t ih =>
    rw [List.contains_cons] at h
    rcases Bool.or_eq_true_iff.mp h with h1 | h1
    · have hba : a = b := by simpa using h1
      exact hba ▸ List.mem_cons_self b t
    · exact List.mem_cons_of_mem b (ih h1)

theorem alookup_of_mem_nodup {α : Type} {k : String} {v : α} :
    ∀ {l : List (String × α)}, (l.map Prod.fst).Nodup → (k, v) ∈ l →
      alookup k l = some v := by
  intro l
  induction l with
  | nil => intro _ hm; cases hm
  | cons p t ih =>
    intro hnd hm
    rw [List.map_cons, List.nodup_cons] at hnd
    rcases List.mem_cons.mp hm with h | h
    · subst h
      simp [alookup]
    · have hne : p.1 ≠ k := by
        intro hEq
        exact hnd.1 (hEq ▸ List.mem_map.mpr ⟨(k, v), h, rfl⟩)
      simpa [alookup, hne] using ih hnd.2 h

theorem aset_self {α : Type} {k : String} {v : α} :
    ∀ {l : List (String × α)}, alookup k l = some v → aset k v l = l := by
  intro l
  induction l with
  | nil => intro h; simp [alookup] at h
  | cons p t ih =>
    intro h
    rcases p with ⟨k1, v1⟩
    unfold alookup at h
    unfold aset
    by_cases hk1 : k1 = k
    · rw [if_pos hk1] at h ⊢
      cases h
      rw [hk1]
    · rw [if_neg hk1] at h ⊢
      rw [ih h]

theorem setMember_self (o : JSVal) (k : String) (d : MDescr)
    (h : getMember o k = some d) : setMember o k d = o := by
  cases o <;> simp_all [getMember, setMember]
  exact aset_self h

/-- C1 (amended): every member of an instrumented object that is not
selected for logging behaves exactly as the corresponding original member
would, for reads, writes and calls alike, and emits no log records.  "Not
selected for logging" covers callable members when `methods` is disabled,
non-callable non-thenable members when `properties` is disabled, and
members the loop never reaches (in `skipProperties`, or non-enumerable,
and not listed in `extraProperties`).  In-place (the default) such a
member is left exactly as it was; on a wrapper a silently shimmed member
holds a verbatim copy of the original descriptor (only made
reconfigurable), while an unreached member is not copied at all, so the
wrapper holds no such member.  Whenever the member is present on the
instrumented object, reading, writing and calling it coincide with the
plain behaviour of the original descriptor on the same receiver
(`origRead`/`origWrite`/`origCall`): same outcome, no log records, no
state change, and after a write the member holds exactly the descriptor
the original write leaves (verbatim-copied on a wrapper).  `"on"`-prefixed
members reached by the loop with `events` enabled are excluded:
passthrough fails for them — see the counterexample. -/
theorem silentShim_passthrough (env : FnEnv)
    (cls : String) (evs : Option (List String)) (gid : Option String)
    (ael dyn : Bool) (ls : List (String × List JSVal))
    (ms : List (String × MDescr)) (opts : Options) (now : Nat)
    (st : IdState) (k : String) (d : MDescr)
    (hms : alookup k ms = some d)
    (hnodup : (ms.map Prod.fst).Nodup)
    (horig : isOriginalDescr d = true)
    (hon : (strStartsWith k "on" && opts.events) = true →
      ((descEnumerable d && !opts.skipProperties.contains k) ||
        opts.extraProperties.contains k) = false)
    (hsel : ((descEnumerable d && !opts.skipProperties.contains k) ||
        opts.extraProperties.contains k) = false ∨
      ((∃ f, memValue env (.obj cls false evs gid ael dyn ls ms) k =
          .ok (.fn f)) ∧ opts.methods = false) ∨
      (opts.properties = false ∧
        ∃ v tv, memValue env (.obj cls false evs gid ael dyn ls ms) k = .ok v ∧
          (∀ f, v ≠ .fn f) ∧
          (if truthy v = true then memValue env v "then"
           else .ok .undef) = .ok tv)) :
    ∀ (tr : JSVal) (w : List (String × JSVal)) (logs : List Log)
      (st1 : IdState),
      traceObject env (.obj cls false evs gid ael dyn ls ms) opts now st =
        ⟨.ok (tr, w), logs, st1⟩ →
      getMember tr k =
        (if opts.inPlace then some d
         else if ((descEnumerable d && !opts.skipProperties.contains k) ||
             opts.extraProperties.contains k) then some (silentCopyD d)
         else none) ∧
      ((opts.inPlace = true ∨
          ((descEnumerable d && !opts.skipProperties.contains k) ||
            opts.extraProperties.contains k) = true) →
        (∀ t0 t1 st2, objRead env opts tr k t0 t1 st2 =
            (origRead env tr d, [], tr, st2)) ∧
        (∀ v t0 t1 st2, objWrite env opts tr k v t0 t1 st2 =
            ((origWrite env tr d v).1, [],
             setMember tr k (if opts.inPlace then (origWrite env tr d v).2
               else silentCopyD (origWrite env tr d v).2), st2)) ∧
        (∀ args t0 t1 st2, objCall env opts tr k args t0 t1 st2 =
            (origCall env tr d args, [], tr, st2))) := by
  intro tr w logs st1 heq
  have hdo : getMember (JSVal.obj cls false evs gid ael dyn ls ms) k =
      some d := by
    simpa [getMember] using hms
  have hnotin : ((descEnumerable d && !opts.skipProperties.contains k) ||
      opts.extraProperties.contains k) = false →
      k ∉ (((ms.filter (fun kv => descEnumerable kv.2 &&
          !opts.skipProperties.contains kv.1)).map Prod.fst) ++
        opts.extraProperties) := by
    intro hil hk
    rw [Bool.or_eq_false_iff] at hil
    rcases List.mem_append.mp hk with hk1 | hk1
    · obtain ⟨kd, hkd, hfst⟩ := List.mem_map.mp hk1
      rcases kd with ⟨k2, d2⟩
      dsimp only at hfst
      subst hfst
      have hin := List.mem_filter.mp hkd
      have h2 : d2 = d := by
        have ha := alookup_of_mem_nodup hnodup hin.1
        rw [hms] at ha
        cases ha
        rfl
      subst h2
      have hpred := hin.2
      dsimp only at hpred
      rw [hil.1] at hpred
      exact Bool.false_ne_true hpred
    · exact not_mem_of_contains_false hil.2 hk1
  have hon2 : (strStartsWith k "on" && opts.events) = false ∨
      k ∉ (((ms.filter (fun kv => descEnumerable kv.2 &&
          !opts.skipProperties.contains kv.1)).map Prod.fst) ++
        opts.extraProperties) := by
    cases hOE : (strStartsWith k "on" && opts.events) with
    | false => exact Or.inl rfl
    | true => exact Or.inr (hnotin (hon hOE))
  obtain ⟨traced1, logs0, watches, hsl, hmem⟩ :=
    traceObject_member_k env cls evs gid ael dyn ls ms opts now st k hon2
      tr w logs st1 heq
  have hstepAll : (((∃ f, memValue env
        (.obj cls false evs gid ael dyn ls ms) k = .ok (.fn f)) ∧
        opts.methods = false) ∨
      (opts.properties = false ∧
        ∃ v tv, memValue env (.obj cls false evs gid ael dyn ls ms) k =
            .ok v ∧
          (∀ f, v ≠ .fn f) ∧
          (if truthy v = true then memValue env v "then"
           else .ok .undef) = .ok tv)) →
      ∀ traced : JSVal,
      (shimMember env (.obj cls false evs gid ael dyn ls ms) traced k cls
        opts now).1 =
      .ok (if opts.inPlace then traced
           else setMember traced k (silentCopyD d)) := by
    intro hsil traced
    rcases hsil with ⟨⟨f, hv⟩, hm2⟩ | ⟨hp2, v, tv, hv, hnf, hth⟩
    · exact shimMember_silent_fn env _ traced k cls opts now f d hv hm2 hdo
    · exact shimMember_silent_prop env _ traced k cls opts now v tv d hv
        hnf hp2 hth hdo
  have hstate : getMember tr k =
      (if opts.inPlace then some d
       else if ((descEnumerable d && !opts.skipProperties.contains k) ||
           opts.extraProperties.contains k) then some (silentCopyD d)
       else none) := by
    rw [hmem]
    by_cases hip : opts.inPlace = true
    · rw [if_pos hip]
      rcases hsel with hil | hsil
      · have hp := shimLoop_preserves env _ opts cls now k _ _ traced1
          (hnotin hil) (by rw [hsl])
        rw [hp, if_pos hip]
        exact hdo
      · have hfix := shimLoop_fixes env _ opts cls now k
          (fun traced hobj =>
            ⟨traced, by rw [hstepAll hsil traced, if_pos hip], rfl, hobj⟩)
          _ _ traced1
          (ite_isObj (JSVal.obj cls false evs gid ael dyn ls ms)
            (JSVal.obj cls false none none ael false [] []) rfl rfl)
          (by rw [hsl])
        rw [hfix, if_pos hip]
        exact hdo
    · rw [if_neg hip]
      have hb : opts.inPlace = false := by
        cases hop : opts.inPlace
        · rfl
        · exact absurd hop hip
      by_cases hil : ((descEnumerable d && !opts.skipProperties.contains k) ||
          opts.extraProperties.contains k) = true
      · rw [if_pos hil]
        have hsil : ((∃ f, memValue env
              (.obj cls false evs gid ael dyn ls ms) k = .ok (.fn f)) ∧
              opts.methods = false) ∨
            (opts.properties = false ∧
              ∃ v tv, memValue env (.obj cls false evs gid ael dyn ls ms) k =
                  .ok v ∧
                (∀ f, v ≠ .fn f) ∧
                (if truthy v = true then memValue env v "then"
                 else .ok .undef) = .ok tv) := by
          rcases hsel with h | h
          · rw [h] at hil
            simp at hil
          · exact h
        have honk : (strStartsWith k "on" && opts.events) = false := by
          cases hOE : (strStartsWith k "on" && opts.events)
          · rfl
          · rw [hon hOE] at hil
            simp at hil
        have hkmem : k ∈ (((ms.filter (fun kv => descEnumerable kv.2 &&
            !opts.skipProperties.contains kv.1)).map Prod.fst) ++
              opts.extraProperties) := by
          rcases Bool.or_eq_true_iff.mp hil with h1 | h1
          · exact List.mem_append_left _ (List.mem_map.mpr ⟨(k, d),
              List.mem_filter.mpr ⟨mem_of_alookup k d ms hms,
                by simpa using h1⟩, rfl⟩)
          · exact List.mem_append_right _ (mem_of_contains_true h1)
        exact shimLoop_installs env _ opts cls now k
          (some (silentCopyD d)) honk
          (fun traced hobj =>
            ⟨setMember traced k (silentCopyD d),
             by rw [hstepAll hsil traced, hb]; simp,
             setMember_getMember_self2 traced k _ hobj,
             setMember_isObj traced k _ hobj⟩)
          _ _ traced1 hkmem
          (ite_isObj (JSVal.obj cls false evs gid ael dyn ls ms)
            (JSVal.obj cls false none none ael false [] []) rfl rfl)
          (by rw [hsl])
      · rw [if_neg hil]
        have hilf : ((descEnumerable d && !opts.skipProperties.contains k) ||
            opts.extraProperties.contains k) = false := by
          cases h : ((descEnumerable d && !opts.skipProperties.contains k) ||
              opts.extraProperties.contains k)
          · rfl
          · exact absurd h hil
        have hp := shimLoop_preserves env _ opts cls now k _ _ traced1
          (hnotin hilf) (by rw [hsl])
        rw [hp, if_neg hip]
        rfl
  refine ⟨hstate, ?_⟩
  intro hpres
  have hk2 : getMember tr k =
      some (if opts.inPlace then d else silentCopyD d) := by
    by_cases hip : opts.inPlace = true
    · rw [hstate, if_pos hip, if_pos hip]
    · rcases hpres with h | h
      · exact absurd h hip
      · rw [hstate, if_neg hip, if_pos h, if_neg hip]
  have hread : ∀ t0 t1 st2, objRead env opts tr k t0 t1 st2 =
      (origRead env tr d, [], tr, st2) := by
    intro t0 t1 st2
    by_cases hip : opts.inPlace = true
    · have hk3 : getMember tr k = some d := by rw [hk2, if_pos hip]
      cases d with
      | dataD v0 w0 e0 c0 => simp [objRead, origRead, hk3]
      | accD g s e0 c0 =>
        cases g with
        | none => simp [objRead, origRead, hk3]
        | some f => simp [objRead, origRead, hk3]
      | handlerD slot => simp [objRead, origRead, hk3]
      | propShimData a b c => simp [isOriginalDescr] at horig
      | propShimAcc a b => simp [isOriginalDescr] at horig
      | listenerShim a b => simp [isOriginalDescr] at horig
    · have hk3 : getMember tr k = some (silentCopyD d) := by
        rw [hk2, if_neg hip]
      cases d with
      | dataD v0 w0 e0 c0 => simp [objRead, origRead, silentCopyD, hk3]
      | accD g s e0 c0 =>
        cases g with
        | none => simp [objRead, origRead, silentCopyD, hk3]
        | some f => simp [objRead, origRead, silentCopyD, hk3]
      | handlerD slot => simp [objRead, origRead, silentCopyD, hk3]
      | propShimData a b c => simp [isOriginalDescr] at horig
      | propShimAcc a b => simp [isOriginalDescr] at horig
      | listenerShim a b => simp [isOriginalDescr] at horig
  have hwrite : ∀ v t0 t1 st2, objWrite env opts tr k v t0 t1 st2 =
      ((origWrite env tr d v).1, [],
       setMember tr k (if opts.inPlace then (origWrite env tr d v).2
         else silentCopyD (origWrite env tr d v).2), st2) := by
    intro v t0 t1 st2
    by_cases hip : opts.inPlace = true
    · have hk3 : getMember tr k = some d := by rw [hk2, if_pos hip]
      rw [if_pos hip]
      cases d with
      | dataD v0 w0 e0 c0 =>
        by_cases hw : w0 = true
        · subst hw
          simp [objWrite, origWrite, hk3]
        · have hw0 : w0 = false := by
            cases w0
            · rfl
            · exact absurd rfl hw
          subst hw0
          simp [objWrite, origWrite, hk3, setMember_self tr k _ hk3]
      | accD g s e0 c0 =>
        cases s with
        | none => simp [objWrite, origWrite, hk3, setMember_self tr k _ hk3]
        | some f =>
          cases henv : env.call f tr [v] with
          | ok u =>
            simp [objWrite, origWrite, hk3, henv, setMember_self tr k _ hk3]
          | error e =>
            simp [objWrite, origWrite, hk3, henv, setMember_self tr k _ hk3]
      | handlerD slot => simp [objWrite, origWrite, hk3]
      | propShimData a b c => simp [isOriginalDescr] at horig
      | propShimAcc a b => simp [isOriginalDescr] at horig
      | listenerShim a b => simp [isOriginalDescr] at horig
    · have hk3 : getMember tr k = some (silentCopyD d) := by
        rw [hk2, if_neg hip]
      rw [if_neg hip]
      cases d with
      | dataD v0 w0 e0 c0 =>
        by_cases hw : w0 = true
        · subst hw
          simp [objWrite, origWrite, silentCopyD, hk3]
        · have hw0 : w0 = false := by
            cases w0
            · rfl
            · exact absurd rfl hw
          subst hw0
          simp [objWrite, origWrite, silentCopyD, hk3]
          exact (setMember_self tr k _
            (by simpa [silentCopyD] using hk3)).symm
      | accD g s e0 c0 =>
        cases s with
        | none =>
          simp [objWrite, origWrite, silentCopyD, hk3]
          exact (setMember_self tr k _
            (by simpa [silentCopyD] using hk3)).symm
        | some f =>
          cases henv : env.call f tr [v] with
          | ok u =>
            simp [objWrite, origWrite, silentCopyD, hk3, henv]
            exact (setMember_self tr k _
              (by simpa [silentCopyD] using hk3)).symm
          | error e =>
            simp [objWrite, origWrite, silentCopyD, hk3, henv]
            exact (setMember_self tr k _
              (by simpa [silentCopyD] using hk3)).symm
      | handlerD slot => simp [objWrite, origWrite, silentCopyD, hk3]
      | propShimData a b c => simp [isOriginalDescr] at horig
      | propShimAcc a b => simp [isOriginalDescr] at horig
      | listenerShim a b => simp [isOriginalDescr] at horig
  refine ⟨hread, hwrite, ?_⟩
  intro args t0 t1 st2
  unfold objCall
  rw [hread t0 t1 st2]
  unfold origCall
  cases hor : origRead env tr d with
  | ok v2 =>
    cases hc : callVal env tr v2 args with
    | ok r => simp [hc]
    | error e => simp [hc]
  | error e => simp

end TraceAnything

namespace TraceAnything

/-- The instrumented-object input used by the C1 witness: a plain data
member `x` on a class `M` instance. -/
def objW : JSVal :=
  .obj "M" false none none false false []
    [("x", .dataD (.num 5) true true true)]

/-- Options for the C1 witness: properties logging disabled, so `x` is
given the silent shim. -/
def optsW : Options := { defaultOptions with properties := false }

/-- The concrete result of `traceObject` on [objW] with [optsW]. -/
def trW : JSVal :=
  .obj "M" true (some []) (some "M_1") false false []
    [("x", .dataD (.num 5) true true true)]

theorem silentShim_passthrough_witness :
    getMember trW "x" = some (MDescr.dataD (.num 5) true true true) ∧
    objRead envU optsW trW "x" 0 0 [] =
      (origRead envU trW (.dataD (.num 5) true true true), [], trW, []) := by
  have h := silentShim_passthrough envU "M" none none false false []
    [("x", .dataD (.num 5) true true true)] optsW 0 [] "x"
    (.dataD (.num 5) true true true) rfl (by simp) rfl (by decide)
    (.inr (.inr ⟨rfl, .num 5, .undef, rfl, fun f => by simp, rfl⟩))
    trW [] [] [("M", 2)] rfl
  exact ⟨by simpa [optsW, defaultOptions] using h.1, (h.2 (Or.inl rfl)).1 0 0 []⟩


/-- C1 (counterexample): passthrough fails for `"on"`-prefixed
event-listener members when `events` is enabled.  A `Media` instance with
an `onfoo` handler slot is instrumented with the default options; the
application then assigns its own listener and reads the member back.  On
the original object the read returns the listener just assigned, but on
the instrumented object `_shimEventListenerProperty` (lines 654-700) has
replaced the member by an accessor whose getter returns the shim wrapper
around the stored listener, so the read returns the wrapper — a different
function value than was written. -/
theorem onProperty_readback_counterexample :
    ∃ (tr : JSVal) (w : List (String × JSVal)) (logs : List Log)
      (st1 : IdState),
      traceObject envU
        (.obj "Media" false none none false false []
          [("onfoo", .handlerD .jsnull)]) defaultOptions 0 [] =
        ⟨.ok (tr, w), logs, st1⟩ ∧
      (objRead envU defaultOptions
          ((objWrite envU defaultOptions tr "onfoo" (.fn (.user 0))
            0 0 st1).2.2.1) "onfoo" 0 0 st1).1 =
        .ok (.fn (.shimL "foo" none (.fn (.user 0)))) ∧
      (objRead envU defaultOptions
          ((objWrite envU defaultOptions
            (.obj "Media" false none none false false []
              [("onfoo", .handlerD .jsnull)]) "onfoo" (.fn (.user 0))
            0 0 st1).2.2.1) "onfoo" 0 0 st1).1 =
        .ok (.fn (.user 0)) ∧
      (JSVal.fn (.shimL "foo" none (.fn (.user 0)))) ≠ .fn (.user 0) := by
  refine ⟨_, _, _, _, rfl, rfl, rfl, by simp⟩

